import Mathlib

/-!
# Azure Data Explorer output plugin: a shallow embedding

The definitions below follow `plugins/outputs/azure_data_explorer/azure_data_explorer.go`
function by function.  The connector record is passed explicitly together with a
chronological trace of every call that leaves the plugin (management statements,
ingestor constructions, ingestion submissions, releases, log lines).  The answers of
the outside world are given by an environment of oracles that may depend on the
trace so far.  A Go runtime panic (write into a nil map, call through a nil
interface) is the result `none`.  The logger is taken to be set, byte slices are
values, and contexts and deadlines are not represented: a timeout is one of the
errors an oracle may answer.  `Connect` and `createRealIngestor` only talk to the
libraries; their effect is a connector with its clients, maps and factory set.
-/

namespace Telegraf

/-! ## Data model -/

/-- A byte slice. -/
abbrev Bytes := List UInt8

/-- Identity of an ingestor object handed out by the ingestion library. -/
abbrev Handle := Nat

/-- Identity of a client object. -/
abbrev Client := Nat

/-- A Go map with string keys; the stored order carries no meaning. -/
abbrev GoMap (V : Type) := AList (fun _ : String => V)

/-- The part of `telegraf.Metric` the plugin can observe. -/
structure Metric where
  name : String
  fields : List (String × String)
  tags : List (String × String)
  timestamp : Int
deriving DecidableEq, Repr

/-- Error values.  `ext` is an error produced outside the plugin. -/
inductive Err where
  | ext (msg : String)
  | new (msg : String)
  | creatingTable (table : String) (cause : Err)
  | creatingIngestor (table : String) (cause : Err)
  | unknownIngestionType (ingestionType : String)
  | ingestionTypeOneOf (a b : String)
  | combined (errs : List Err)
deriving Repr

/-- Arguments of `json.NewSerializer`. -/
structure Serializer where
  timestampUnits : Nat
  timestampFormat : String
  transformation : String
deriving DecidableEq, Repr

inductive LogLevel where
  | info | debug | error
deriving DecidableEq, Repr

/-- One call that leaves the plugin, with the answer that came back. -/
inductive Event where
  | mgmt (legacy : Bool) (client : Client) (db stmt : String) (result : Option Err)
  | createIngestor (factory : Nat) (client : Option Client) (db table : String)
      (result : Option Handle × Option Err)
  | ingestNew (managed : Bool) (client : Option Client) (db table : String)
      (result : Except Err Handle)
  | fromReader (legacy : Bool) (table : String) (h : Handle) (payload : Bytes)
      (mapping : String) (result : Option Err)
  | closeIngestor (h : Handle) (result : Option Err)
  | closeClient (client : Client) (result : Option Err)
  | log (level : LogLevel) (msg : String) (args : List String)

/-- The connector. `none` stands for Go nil. -/
structure AzureDataExplorer where
  Endpoint : String
  Database : String
  MetricsGrouping : String
  TableName : String
  CreateTables : Bool
  IngestionType : String
  client : Option Client
  ingesters : Option (GoMap (Option Handle))
  serializer : Option Serializer
  createIngestor : Option Nat
  kustoClient : Option Client
  metricIngestors : Option (GoMap Handle)

/-- The connector together with the trace of outside calls made so far. -/
structure St where
  adx : AzureDataExplorer
  trace : List Event

/-- Answers of everything outside the plugin. -/
structure Env where
  /-- The call `serializers.Serializer.Serialize`. -/
  serialize : Serializer → Metric → Except Err Bytes
  /-- The call `json.NewSerializer`. -/
  newSerializer : Nat → String → String → Except Err Serializer
  /-- The call `strings.ToLower`. -/
  toLower : String → String
  /-- The call `Mgmt` on either client. -/
  mgmt : List Event → Bool → Client → String → String → Option Err
  /-- The call through the `ingestorFactory` stored in the connector. -/
  factory : List Event → Nat → Option Client → String → String → Option Handle × Option Err
  /-- The calls `ingest.New` (with a static buffer) and `ingest.NewManaged`. -/
  ingestNew : List Event → Bool → Option Client → String → String → Except Err Handle
  /-- The call `FromReader` on an ingestor. -/
  fromReader : List Event → Handle → Bytes → String → Option Err
  /-- The call `Close` on an ingestor. -/
  closeIngestor : List Event → Handle → Option Err
  /-- The call `Close` on the kusto client. -/
  closeClient : List Event → Client → Option Err
  /-- Order in which a `range` over a map visits its keys. -/
  rangeOrder : List Event → List String → List String
  rangeOrder_perm : ∀ tr ks, (rangeOrder tr ks).Perm ks

def St.emit (s : St) (e : Event) : St :=
  { s with trace := s.trace ++ [e] }

/-! ## Constants -/

def tablePerMetric : String := "tablepermetric"
def singleTable : String := "singletable"
def bufferSize : Nat := 1 <<< 20
def maxBuffers : Nat := 5
def managedIngestion : String := "managed"
def queuedIngestion : String := "queued"

def createTableCommand (tableName : String) : String :=
  ".create-merge table ['" ++ tableName ++
    "']  (['fields']:dynamic, ['name']:string, ['tags']:dynamic, ['timestamp']:datetime);"

def createTableMappingCommand (tableName mappingName : String) : String :=
  ".create-or-alter table ['" ++ tableName ++ "'] ingestion json mapping '" ++ mappingName ++
    "_mapping' '[\x7b\"column\":\"fields\", " ++
    "\"Properties\":\x7b\"Path\":\"$[\\'fields\\']\"\x7d\x7d,\x7b\"column\":\"name\", " ++
    "\"Properties\":\x7b\"Path\":\"$[\\'name\\']\"\x7d\x7d,\x7b\"column\":\"tags\", " ++
    "\"Properties\":\x7b\"Path\":\"$[\\'tags\\']\"\x7d\x7d,\x7b\"column\":\"timestamp\", " ++
    "\"Properties\":\x7b\"Path\":\"$[\\'timestamp\\']\"\x7d\x7d]'"

/-! ## Operations -/

/-- A log line written through `adx.Log`. -/
def logf (s : St) (level : LogLevel) (msg : String) (args : List String) : St :=
  s.emit (Event.log level msg args)

/-- One `Mgmt` call on a client; the answer is recorded in the trace. -/
def mgmtCall (env : Env) (s : St) (legacy : Bool) (c : Client) (stmt : String) :
    Option Err × St :=
  let r := env.mgmt s.trace legacy c s.adx.Database stmt
  (r, s.emit (Event.mgmt legacy c s.adx.Database stmt r))

/-- The statement is sent through `adx.client` when it is set, else through
`adx.kustoClient` when that is set, else not at all. -/
def execStmt (env : Env) (s : St) (stmt : String) : Option Err × St :=
  match s.adx.client with
  | some c => mgmtCall env s true c stmt
  | none =>
    match s.adx.kustoClient with
    | some k => mgmtCall env s false k stmt
    | none => (none, s)

def createAzureDataExplorerTable (env : Env) (s : St) (tableName : String) :
    Option Err × St :=
  if !s.adx.CreateTables then
    (none, logf s .info "skipped table creation" [])
  else
    match execStmt env s (createTableCommand tableName) with
    | (some err, s1) => (some err, s1)
    | (none, s1) =>
      match execStmt env s1 (createTableMappingCommand tableName tableName) with
      | (some err, s2) => (some err, s2)
      | (none, s2) => (none, s2)

/-- One `ingest.New` or `ingest.NewManaged` call; the answer is recorded. -/
def ingestNewCall (env : Env) (s : St) (managed : Bool) (client : Option Client)
    (database tableName : String) : Except Err Handle × St :=
  let r := env.ingestNew s.trace managed client database tableName
  (r, s.emit (Event.ingestNew managed client database tableName r))

def createIngestorByTable (env : Env) (s : St) (client : Option Client)
    (database tableName ingestionType : String) : Except Err Handle × St :=
  if env.toLower ingestionType = managedIngestion then
    ingestNewCall env s true client database tableName
  else if env.toLower ingestionType = queuedIngestion then
    ingestNewCall env s false client database tableName
  else
    (.error (Err.ingestionTypeOneOf managedIngestion queuedIngestion), s)

def getMetricIngestor (env : Env) (s : St) (tableName : String) :
    Option ((Option Handle × Option Err) × St) :=
  match s.adx.metricIngestors.bind (fun m => m.lookup tableName) with
  | some ingestor => some ((some ingestor, none), s)
  | none =>
    match createAzureDataExplorerTable env s tableName with
    | (some err, s1) => some ((none, some (Err.creatingTable tableName err)), s1)
    | (none, s1) =>
      match createIngestorByTable env s1 s1.adx.kustoClient s1.adx.Database tableName
          s1.adx.IngestionType with
      | (.error err, s2) => some ((none, some (Err.creatingIngestor tableName err)), s2)
      | (.ok tempIngestor, s2) =>
        match s2.adx.metricIngestors with
        | none => none
        | some m =>
          let s3 : St :=
            { s2 with
              adx := { s2.adx with metricIngestors := some (m.insert tableName tempIngestor) } }
          some ((some tempIngestor, none),
            logf s3 .debug "Ingestor for table %s created" [tableName])

/-- The call `adx.createIngestor(adx.client, adx.Database, tableName)`; calling a
nil function value panics. -/
def factoryCall (env : Env) (s : St) (tableName : String) :
    Option ((Option Handle × Option Err) × St) :=
  match s.adx.createIngestor with
  | some f =>
    let r := env.factory s.trace f s.adx.client s.adx.Database tableName
    some (r, s.emit (Event.createIngestor f s.adx.client s.adx.Database tableName r))
  | none => none

def getIngestor (env : Env) (s : St) (tableName : String) :
    Option ((Option Handle × Option Err) × St) :=
  match (s.adx.ingesters.bind (fun m => m.lookup tableName)).join with
  | some ingestor => some ((some ingestor, none), s)
  | none =>
    match createAzureDataExplorerTable env s tableName with
    | (some err, s1) => some ((none, some (Err.creatingTable tableName err)), s1)
    | (none, s1) =>
      match factoryCall env s1 tableName with
      | none => none
      | some ((_, some err), s2) => some ((none, some (Err.creatingIngestor tableName err)), s2)
      | some ((tempIngestor, none), s2) =>
        match s2.adx.ingesters with
        | none => none
        | some m =>
          some ((tempIngestor, none),
            { s2 with adx := { s2.adx with ingesters := some (m.insert tableName tempIngestor) } })

/-- The `FromReader` call of `pushMetrics`, with the error log line on failure. -/
def submit (env : Env) (s : St) (legacy : Bool) (tableName : String) (h : Handle)
    (metricsArray : Bytes) (mapping : String) : St :=
  let r := env.fromReader s.trace h metricsArray mapping
  let s1 := s.emit (Event.fromReader legacy tableName h metricsArray mapping r)
  match r with
  | some _ =>
    logf s1 .error "sending ingestion request to Azure Data Explorer for table %q failed: %v"
      [tableName]
  | none => s1

/-- Whether `pushMetrics` takes the deprecated branch. -/
def AzureDataExplorer.legacy (adx : AzureDataExplorer) : Bool :=
  adx.client.isSome && adx.createIngestor.isSome

/-- The head of `pushMetrics`: the ingestor comes from `getIngestor` when both
`adx.client` and `adx.createIngestor` are set and from `getMetricIngestor` otherwise. -/
def acquire (env : Env) (s : St) (tableName : String) :
    Option ((Option Handle × Option Err) × St) :=
  if s.adx.legacy then getIngestor env s tableName else getMetricIngestor env s tableName

def pushMetrics (env : Env) (s : St) (tableName : String) (metricsArray : Bytes) :
    Option (Option Err × St) :=
  match acquire env s tableName with
  | none => none
  | some ((_, some err), s1) => some (some err, s1)
  | some ((ingestor, none), s1) =>
    let s2 := logf s1 .debug "Writing %s metrics to table %q"
      [toString metricsArray.length, tableName]
    let mapping := tableName ++ "_mapping"
    match ingestor with
    | some h => some (none, submit env s2 s.adx.legacy tableName h metricsArray mapping)
    | none => some (none, s2)

/-- The grouping loop of `writeTablePerMetric`. -/
def tableMetricGroups (env : Env) (adx : AzureDataExplorer) :
    List Metric → GoMap Bytes → Option (Except Err (GoMap Bytes))
  | [], groups => some (.ok groups)
  | m :: rest, groups =>
    match adx.serializer with
    | none => none
    | some z =>
      match env.serialize z m with
      | .error err => some (.error err)
      | .ok metricInBytes =>
        match groups.lookup m.name with
        | some existingBytes =>
          tableMetricGroups env adx rest (groups.insert m.name (existingBytes ++ metricInBytes))
        | none => tableMetricGroups env adx rest (groups.insert m.name metricInBytes)

/-- The entries of a map in the order a `range` statement visits them. -/
def rangeEntries {V : Type} (env : Env) (tr : List Event) (m : GoMap V) : List (String × V) :=
  (env.rangeOrder tr m.keys).filterMap (fun k => (m.lookup k).map (fun v => (k, v)))

/-- The push loop of `writeTablePerMetric`: stops at the first error. -/
def pushGroups (env : Env) : List (String × Bytes) → St → Option (Option Err × St)
  | [], s => some (none, s)
  | (tableName, tableMetrics) :: rest, s =>
    match pushMetrics env s tableName tableMetrics with
    | none => none
    | some (some err, s1) => some (some err, s1)
    | some (none, s1) => pushGroups env rest s1

def writeTablePerMetric (env : Env) (s : St) (metrics : List Metric) :
    Option (Option Err × St) :=
  match tableMetricGroups env s.adx metrics ∅ with
  | none => none
  | some (.error err) => some (some err, s)
  | some (.ok groups) => pushGroups env (rangeEntries env s.trace groups) s

/-- The serialisation loop of `writeSingleTable`. -/
def metricsArray (env : Env) (adx : AzureDataExplorer) :
    List Metric → Bytes → Option (Except Err Bytes)
  | [], acc => some (.ok acc)
  | m :: rest, acc =>
    match adx.serializer with
    | none => none
    | some z =>
      match env.serialize z m with
      | .error err => some (.error err)
      | .ok metricsInBytes => metricsArray env adx rest (acc ++ metricsInBytes)

def writeSingleTable (env : Env) (s : St) (metrics : List Metric) : Option (Option Err × St) :=
  match metricsArray env s.adx metrics [] with
  | none => none
  | some (.error err) => some (some err, s)
  | some (.ok bytes) => pushMetrics env s s.adx.TableName bytes

def Write (env : Env) (s : St) (metrics : List Metric) : Option (Option Err × St) :=
  if s.adx.MetricsGrouping = tablePerMetric then writeTablePerMetric env s metrics
  else writeSingleTable env s metrics

/-- The release loop of `Close`: every handle is closed, failures are collected. -/
def closeIngestors (env : Env) : List (String × Handle) → St → List Err → St × List Err
  | [], s, errs => (s, errs)
  | (_, v) :: rest, s, errs =>
    let r := env.closeIngestor s.trace v
    let s1 := s.emit (Event.closeIngestor v r)
    match r with
    | some err => closeIngestors env rest s1 (errs ++ [err])
    | none => closeIngestors env rest s1 errs

def Close (env : Env) (s : St) : Option (Option Err × St) :=
  let entries := match s.adx.metricIngestors with
    | some m => rangeEntries env s.trace m
    | none => []
  let (s1, errs1) := closeIngestors env entries s []
  match s1.adx.kustoClient with
  | none => none
  | some k =>
    let r := env.closeClient s1.trace k
    let s2 := s1.emit (Event.closeClient k r)
    let errs := match r with
      | some err => errs1 ++ [err]
      | none => errs1
    let s3 : St :=
      { s2 with adx := { s2.adx with kustoClient := none, metricIngestors := none } }
    if errs.length = 0 then
      some (none, logf s3 .info "Closed ingestors and client" [])
    else
      let s4 : St := { s3 with adx := { s3.adx with client := none, ingesters := none } }
      some (some (Err.combined errs), s4)

/-- Modelled from the spec: `choice.Contains` of `internal/choice` is not among the
sources; the ingestion mode is recognised when it is one of the listed strings. -/
def choiceContains (choice : String) (choices : List String) : Bool :=
  choices.contains choice

def Init (env : Env) (adx : AzureDataExplorer) : Option Err × AzureDataExplorer :=
  if adx.Endpoint = "" then
    (some (Err.new "Endpoint configuration cannot be empty"), adx)
  else if adx.Database = "" then
    (some (Err.new "Database configuration cannot be empty"), adx)
  else
    let adx1 := { adx with MetricsGrouping := env.toLower adx.MetricsGrouping }
    if adx1.MetricsGrouping = singleTable ∧ adx1.TableName = "" then
      (some (Err.new "Table name cannot be empty for SingleTable metrics grouping type"), adx1)
    else
      let adx2 := if adx1.MetricsGrouping = "" then
          { adx1 with MetricsGrouping := tablePerMetric } else adx1
      if ¬ (adx2.MetricsGrouping = singleTable ∨ adx2.MetricsGrouping = tablePerMetric) then
        (some (Err.new "Metrics grouping type is not valid"), adx2)
      else
        let ingestion : Except Err AzureDataExplorer :=
          if adx2.IngestionType = "" then
            .ok { adx2 with IngestionType := queuedIngestion }
          else if !(choiceContains adx2.IngestionType [managedIngestion, queuedIngestion]) then
            .error (Err.unknownIngestionType adx2.IngestionType)
          else .ok adx2
        match ingestion with
        | .error err => (some err, adx2)
        | .ok adx3 =>
          match env.newSerializer 1 "2006-01-02T15:04:05.999999999Z07:00" "" with
          | .error err => (some err, adx3)
          | .ok serializer => (none, { adx3 with serializer := some serializer })

/-! ## Vocabulary of the statements -/

/-- The handle the cache in use holds for a table, if any. -/
def cached (adx : AzureDataExplorer) (tableName : String) : Option Handle :=
  if adx.legacy then (adx.ingesters.bind (fun m => m.lookup tableName)).join
  else adx.metricIngestors.bind (fun m => m.lookup tableName)

/-- The connector with both caches blanked: the part no write touches. -/
def AzureDataExplorer.config (adx : AzureDataExplorer) : AzureDataExplorer :=
  { adx with ingesters := none, metricIngestors := none }

/-- The cache in use is a map that can be written to. -/
def Ready (adx : AzureDataExplorer) : Prop :=
  if adx.legacy then adx.ingesters ≠ none else adx.metricIngestors ≠ none

def Event.isMgmt : Event → Bool
  | .mgmt _ _ _ _ _ => true
  | _ => false

/-- A call that builds an ingestor, whatever its answer. -/
def Event.isConstruct : Event → Bool
  | .createIngestor _ _ _ _ _ => true
  | .ingestNew _ _ _ _ _ => true
  | _ => false

def Event.isSubmit : Event → Bool
  | .fromReader _ _ _ _ _ _ => true
  | _ => false

/-- A call that built a handle for the given table. -/
def Event.builds (tableName : String) : Event → Bool
  | .createIngestor _ _ _ t (some _, none) => t = tableName
  | .ingestNew _ _ _ t (.ok _) => t = tableName
  | _ => false

/-- The ingestion jobs of a trace: destination table and payload. -/
def submissions : List Event → List (String × Bytes)
  | [] => []
  | .fromReader _ t _ payload _ _ :: rest => (t, payload) :: submissions rest
  | _ :: rest => submissions rest

/-- A sequence of ingestor lookups, one after the other. -/
def lookups (env : Env) : List String → St → Option (List (Option Handle × Option Err) × St)
  | [], s => some ([], s)
  | t :: rest, s =>
    match acquire env s t with
    | none => none
    | some (r, s1) =>
      match lookups env rest s1 with
      | none => none
      | some (rs, s2) => some (r :: rs, s2)

/-- What one ingestor lookup for `t` that went from `s` to `s1` with answer `r`
guarantees. -/
def AcquirePost (s : St) (t : String) (r : Option Handle × Option Err) (s1 : St) : Prop :=
  s1.adx.config = s.adx.config ∧
  (∃ evs, s1.trace = s.trace ++ evs ∧ (∀ e ∈ evs, e.isSubmit = false) ∧
    (∀ u, u ≠ t → ∀ e ∈ evs, e.builds u = false) ∧
    evs.countP (Event.builds t) ≤ 1 ∧
    (evs.countP (Event.builds t) = 1 → cached s1.adx t ≠ none) ∧
    (cached s.adx t ≠ none → evs = [])) ∧
  (∀ u h, cached s.adx u = some h → cached s1.adx u = some h) ∧
  (r.2 = none → r.1 = cached s1.adx t) ∧
  (r.2 ≠ none → s1.adx = s.adx ∧ r.1 = none) ∧
  (Ready s.adx → Ready s1.adx)

/-- Provisioning the table and building its ingestor succeed whenever they are
tried: both management statements are accepted and the constructor of the path in
use answers with a handle. -/
def Provisions (env : Env) (adx : AzureDataExplorer) (t : String) : Prop :=
  (adx.CreateTables = true → ∀ tr lg c,
    env.mgmt tr lg c adx.Database (createTableCommand t) = none ∧
    env.mgmt tr lg c adx.Database (createTableMappingCommand t t) = none) ∧
  (if adx.legacy then ∀ tr f c, ∃ h, env.factory tr f c adx.Database t = (some h, none)
   else (env.toLower adx.IngestionType = managedIngestion ∨
          env.toLower adx.IngestionType = queuedIngestion) ∧
        ∀ tr mg, ∃ h, env.ingestNew tr mg adx.kustoClient adx.Database t = .ok h)

/-- The table obtains an ingestor: it has one cached, or the cache can be written
to and provisioning succeeds. -/
def Obtains (env : Env) (adx : AzureDataExplorer) (t : String) : Prop :=
  cached adx t ≠ none ∨ (Ready adx ∧ Provisions env adx t)

/-- Along the push loop over `l` started in `s`, every ingestor lookup returns a
handle. -/
def AllObtain (env : Env) : List (String × Bytes) → St → Prop
  | [], _ => True
  | (t, b) :: rest, s =>
    (∃ h s1, acquire env s t = some ((some h, none), s1)) ∧
    ∀ r s2, pushMetrics env s t b = some (r, s2) → AllObtain env rest s2

/-- The five grounds on which `Init` is said to refuse a configuration, with the
grouping mode read as `grouping` and the ingestion mode read as `ingestion`. -/
def Rejected (grouping ingestion : String) (adx : AzureDataExplorer) : Prop :=
  adx.Endpoint = "" ∨ adx.Database = "" ∨
  (grouping = singleTable ∧ adx.TableName = "") ∨
  (grouping ≠ "" ∧ grouping ≠ tablePerMetric ∧ grouping ≠ singleTable) ∨
  (ingestion ≠ "" ∧ ingestion ≠ queuedIngestion ∧ ingestion ≠ managedIngestion)

/-! ## Sample worlds -/

/-- Lower-casing of ASCII text, where it agrees with `strings.ToLower`. -/
def asciiLower (s : String) : String :=
  String.mk (s.data.map Char.toLower)

/-- A stand-in serialization: one byte holding the timestamp. -/
def stampByte (m : Metric) : Bytes :=
  [m.timestamp.toNat.toUInt8]

/-- A world in which every outside call succeeds; a new handle is numbered by
the length of the trace at its construction and maps are ranged in stored order. -/
def calmEnv : Env where
  serialize := fun _ m => .ok (stampByte m)
  newSerializer := fun u f t => .ok ⟨u, f, t⟩
  toLower := asciiLower
  mgmt := fun _ _ _ _ _ => none
  factory := fun tr _ _ _ _ => (some tr.length, none)
  ingestNew := fun tr _ _ _ _ => .ok tr.length
  fromReader := fun _ _ _ _ => none
  closeIngestor := fun _ _ => none
  closeClient := fun _ _ => none
  rangeOrder := fun _ ks => ks
  rangeOrder_perm := fun _ _ => List.Perm.refl _

/-- The calm world, except that every management statement is refused. -/
def refusingEnv : Env :=
  { calmEnv with mgmt := fun _ _ _ _ _ => some (Err.ext "request denied") }

/-- The calm world, except that submissions with the mapping of table `cpu` fail. -/
def lossyEnv : Env :=
  { calmEnv with
    fromReader := fun _ _ _ mapping =>
      if mapping = "cpu_mapping" then some (Err.ext "ingestion refused") else none }

/-- The calm world, except that releasing handle 2 fails. -/
def stickyEnv : Env :=
  { calmEnv with
    closeIngestor := fun _ h => if h = 2 then some (Err.ext "close failed") else none }

/-- The calm world, except that metrics named `bad` do not serialize. -/
def pickyEnv : Env :=
  { calmEnv with
    serialize := fun _ m =>
      if m.name = "bad" then .error (Err.ext "unsupported value") else .ok (stampByte m) }

/-- The serializer `Init` installs. -/
def jsonSerializer : Serializer :=
  ⟨1, "2006-01-02T15:04:05.999999999Z07:00", ""⟩

/-- A connector as `Init` and `Connect` leave it, in tablepermetric mode. -/
def connected : AzureDataExplorer where
  Endpoint := "https://cluster.kusto.windows.net"
  Database := "telemetry"
  MetricsGrouping := tablePerMetric
  TableName := ""
  CreateTables := true
  IngestionType := queuedIngestion
  client := some 0
  ingesters := some ∅
  serializer := some jsonSerializer
  createIngestor := some 0
  kustoClient := some 0
  metricIngestors := some ∅

/-- The same connector in singletable mode with table `metrics`. -/
def connectedSingle : AzureDataExplorer :=
  { connected with MetricsGrouping := singleTable, TableName := "metrics" }

/-- A connector driven through the kusto client only, with three ingestors cached. -/
def threeHandles : AzureDataExplorer :=
  { connected with
    client := none, createIngestor := none, ingesters := none,
    metricIngestors := some (((∅ : GoMap Handle).insert "cpu" 1).insert "mem" 2 |>.insert "disk" 3) }

/-- A connector driven through the kusto client only whose ingestion mode escaped
validation. -/
def unvalidated : AzureDataExplorer :=
  { connected with
    client := none, createIngestor := none, ingesters := none, IngestionType := "direct" }

/-- A configuration, not yet initialised, that spells the grouping mode with capitals. -/
def mixedCase : AzureDataExplorer :=
  { connected with
    MetricsGrouping := "SingleTable", TableName := "metrics", IngestionType := "",
    client := none, ingesters := none, serializer := none, createIngestor := none,
    kustoClient := none, metricIngestors := none }

/-- A configuration, not yet initialised, that spells the ingestion mode with a
capital. -/
def capitalManaged : AzureDataExplorer :=
  { mixedCase with MetricsGrouping := "tablepermetric", IngestionType := "Managed" }

def cpu1 : Metric := ⟨"cpu", [("usage", "10")], [("host", "x")], 1⟩
def mem2 : Metric := ⟨"mem", [("used", "50")], [("host", "x")], 2⟩
def cpu3 : Metric := ⟨"cpu", [("usage", "12")], [("host", "x")], 3⟩
def bad4 : Metric := ⟨"bad", [("value", "NaN")], [], 4⟩

def sampleBatch : List Metric := [cpu1, mem2, cpu3]

/-! ## Grouping by metric name -/

/-- The grouping loop started from any map: every name of the batch ends up holding
what it held before followed by the bytes of its metrics in arrival order, and
every other key is left alone. -/
theorem tableMetricGroups_lookup (env : Env) (adx : AzureDataExplorer) (z : Serializer)
    (ser : Metric → Bytes) (hz : adx.serializer = some z) :
    ∀ (metrics : List Metric) (g : GoMap Bytes),
      (∀ m ∈ metrics, env.serialize z m = .ok (ser m)) →
      ∃ groups, tableMetricGroups env adx metrics g = some (.ok groups) ∧
        ∀ n, groups.lookup n =
          if n ∈ metrics.map Metric.name then
            some ((g.lookup n).getD [] ++
              ((metrics.filter (fun m => m.name = n)).map ser).flatten)
          else g.lookup n := by
  intro metrics
  induction metrics with
  | nil =>
    intro g _
    exact ⟨g, rfl, fun n => by simp⟩
  | cons m rest ih =>
    intro g hser
    have hm : env.serialize z m = .ok (ser m) := hser m (List.mem_cons_self _ _)
    have hrest : ∀ x ∈ rest, env.serialize z x = .ok (ser x) :=
      fun x hx => hser x (List.mem_cons_of_mem _ hx)
    have key : ∀ g1 : GoMap Bytes,
        (∀ n, g1.lookup n =
          if n = m.name then some ((g.lookup n).getD [] ++ ser m) else g.lookup n) →
        ∃ groups, tableMetricGroups env adx rest g1 = some (.ok groups) ∧
          ∀ n, groups.lookup n =
            if n ∈ (m :: rest).map Metric.name then
              some ((g.lookup n).getD [] ++
                (((m :: rest).filter (fun x => x.name = n)).map ser).flatten)
            else g.lookup n := by
      intro g1 hg1
      obtain ⟨groups, hrun, hl⟩ := ih g1 hrest
      refine ⟨groups, hrun, fun n => ?_⟩
      rw [hl n, hg1 n]
      by_cases hn : n = m.name
      · subst hn
        by_cases hr : m.name ∈ rest.map Metric.name
        · simp [hr, List.filter_cons]
        · have hnil : rest.filter (fun x => decide (x.name = m.name)) = [] := by
            rw [List.filter_eq_nil_iff]
            intro x hx hxn
            exact hr (List.mem_map.mpr ⟨x, hx, by simpa using hxn⟩)
          simp [hr, List.filter_cons, hnil]
      · have hn' : ¬ m.name = n := fun h => hn h.symm
        simp [hn, hn', List.filter_cons]
    cases hlk : g.lookup m.name with
    | some existingBytes =>
      have := key (g.insert m.name (existingBytes ++ ser m)) (fun n => by
        by_cases hn : n = m.name
        · subst hn; simp [hlk]
        · simp [hn, AList.lookup_insert_ne hn])
      simpa [tableMetricGroups, hz, hm, hlk] using this
    | none =>
      have := key (g.insert m.name (ser m)) (fun n => by
        by_cases hn : n = m.name
        · subst hn; simp [hlk]
        · simp [hn, AList.lookup_insert_ne hn])
      simpa [tableMetricGroups, hz, hm, hlk] using this

/-- The grouping loop started from the empty map. -/
theorem tableMetricGroups_empty (env : Env) (adx : AzureDataExplorer) (z : Serializer)
    (ser : Metric → Bytes) (metrics : List Metric) (hz : adx.serializer = some z)
    (hser : ∀ m ∈ metrics, env.serialize z m = .ok (ser m)) :
    ∃ groups, tableMetricGroups env adx metrics ∅ = some (.ok groups) ∧
      (∀ n, n ∈ groups.keys ↔ n ∈ metrics.map Metric.name) ∧
      groups.keys.length = (metrics.map Metric.name).dedup.length ∧
      (∀ n ∈ metrics.map Metric.name, groups.lookup n =
        some (((metrics.filter (fun m => m.name = n)).map ser).flatten)) := by
  obtain ⟨groups, hrun, hl⟩ := tableMetricGroups_lookup env adx z ser hz metrics ∅ hser
  have hkeys : ∀ n, n ∈ groups.keys ↔ n ∈ metrics.map Metric.name := by
    intro n
    rw [← AList.mem_keys, ← AList.lookup_isSome, hl n]
    by_cases hn : n ∈ metrics.map Metric.name
    · simp [hn]
    · simp [hn]
  refine ⟨groups, hrun, hkeys, ?_, ?_⟩
  · apply List.Perm.length_eq
    rw [List.perm_ext_iff_of_nodup groups.keys_nodup (List.nodup_dedup _)]
    intro n
    rw [hkeys n, List.mem_dedup]
  · intro n hn
    rw [hl n]
    simp [hn]

/-- C1: in tablepermetric mode, when every metric of the batch serializes, the
group map built by `writeTablePerMetric` has exactly the distinct metric names of
the batch as keys (so as many tables as distinct names), and each name holds the
serialized bytes of exactly its own metrics, concatenated in arrival order. -/
theorem group_map_by_name (env : Env) (adx : AzureDataExplorer) (z : Serializer)
    (ser : Metric → Bytes) (metrics : List Metric) (hz : adx.serializer = some z)
    (hser : ∀ m ∈ metrics, env.serialize z m = .ok (ser m)) :
    ∃ groups, tableMetricGroups env adx metrics ∅ = some (.ok groups) ∧
      (∀ n, n ∈ groups.keys ↔ n ∈ metrics.map Metric.name) ∧
      groups.keys.length = (metrics.map Metric.name).dedup.length ∧
      (∀ n ∈ metrics.map Metric.name, groups.lookup n =
        some (((metrics.filter (fun m => m.name = n)).map ser).flatten)) :=
  tableMetricGroups_empty env adx z ser metrics hz hser

/-! ## Frame lemmas -/

theorem lookup_insert_ite {V : Type} (m : GoMap V) (t u : String) (v : V) :
    (m.insert t v).lookup u = if u = t then some v else m.lookup u := by
  by_cases h : u = t
  · subst h; simp
  · simp [h, AList.lookup_insert_ne h]

theorem execStmt_frame (env : Env) (s : St) (stmt : String) :
    (execStmt env s stmt).2.adx = s.adx ∧
    ∃ evs, (execStmt env s stmt).2.trace = s.trace ++ evs ∧
      ∀ e ∈ evs, e.isMgmt = true := by
  unfold execStmt
  cases s.adx.client with
  | some c => exact ⟨rfl, _, rfl, by simp [Event.isMgmt]⟩
  | none =>
    cases s.adx.kustoClient with
    | some k => exact ⟨rfl, _, rfl, by simp [Event.isMgmt]⟩
    | none => exact ⟨rfl, [], by simp, by simp⟩

/-- Table provisioning leaves the connector alone and only adds management
statements and log lines to the trace. -/
theorem createTable_frame (env : Env) (s : St) (t : String) :
    (createAzureDataExplorerTable env s t).2.adx = s.adx ∧
    ∃ evs, (createAzureDataExplorerTable env s t).2.trace = s.trace ++ evs ∧
      ∀ e ∈ evs, e.isSubmit = false ∧ e.isConstruct = false := by
  have mg : ∀ e : Event, e.isMgmt = true → e.isSubmit = false ∧ e.isConstruct = false := by
    intro e he; cases e <;> simp_all [Event.isMgmt, Event.isSubmit, Event.isConstruct]
  unfold createAzureDataExplorerTable
  by_cases hc : s.adx.CreateTables
  · obtain ⟨ha1, evs1, ht1, hq1⟩ := execStmt_frame env s (createTableCommand t)
    rcases h1 : execStmt env s (createTableCommand t) with ⟨r1, s1⟩
    rw [h1] at ha1 ht1
    simp only at ha1 ht1
    cases r1 with
    | some err =>
      simp only [hc, Bool.not_true, Bool.false_eq_true, if_false]
      exact ⟨ha1, evs1, ht1, fun e he => mg e (hq1 e he)⟩
    | none =>
      simp only [hc, Bool.not_true, Bool.false_eq_true, if_false]
      obtain ⟨ha2, evs2, ht2, hq2⟩ := execStmt_frame env s1 (createTableMappingCommand t t)
      rcases h2 : execStmt env s1 (createTableMappingCommand t t) with ⟨r2, s2⟩
      rw [h2] at ha2 ht2
      simp only at ha2 ht2
      have hq : ∀ e ∈ evs1 ++ evs2, e.isSubmit = false ∧ e.isConstruct = false := by
        intro e he
        rcases List.mem_append.mp he with h | h
        · exact mg e (hq1 e h)
        · exact mg e (hq2 e h)
      cases r2 with
      | some err =>
        exact ⟨ha2.trans ha1, evs1 ++ evs2, by simp only [ht2, ht1, List.append_assoc], hq⟩
      | none =>
        exact ⟨ha2.trans ha1, evs1 ++ evs2, by simp only [ht2, ht1, List.append_assoc], hq⟩
  · simp only [hc, Bool.not_false, if_true]
    exact ⟨rfl, _, rfl, by simp [Event.isSubmit, Event.isConstruct]⟩

theorem builds_isConstruct (u : String) (e : Event) (h : e.builds u = true) :
    e.isConstruct = true := by
  cases e <;> simp_all [Event.builds, Event.isConstruct]

theorem countP_builds_quiet (u : String) (evs : List Event)
    (h : ∀ e ∈ evs, e.isSubmit = false ∧ e.isConstruct = false) :
    evs.countP (Event.builds u) = 0 := by
  rw [List.countP_eq_zero]
  intro e he hb
  have := (h e he).2
  rw [builds_isConstruct u e hb] at this
  exact Bool.noConfusion this

theorem createIngestorByTable_frame (env : Env) (s : St) (c : Option Client)
    (db t ty : String) :
    (createIngestorByTable env s c db t ty).2.adx = s.adx ∧
    (((createIngestorByTable env s c db t ty).2.trace = s.trace ∧
        ∃ e, (createIngestorByTable env s c db t ty).1 = .error e) ∨
      ∃ mg, (createIngestorByTable env s c db t ty).2.trace =
        s.trace ++ [Event.ingestNew mg c db t (createIngestorByTable env s c db t ty).1]) := by
  unfold createIngestorByTable
  by_cases h1 : env.toLower ty = managedIngestion
  · rw [if_pos h1]
    exact ⟨rfl, Or.inr ⟨true, rfl⟩⟩
  · by_cases h2 : env.toLower ty = queuedIngestion
    · rw [if_neg h1, if_pos h2]
      exact ⟨rfl, Or.inr ⟨false, rfl⟩⟩
    · rw [if_neg h1, if_neg h2]
      exact ⟨rfl, Or.inl ⟨rfl, _, rfl⟩⟩

theorem cached_of_not_legacy (adx : AzureDataExplorer) (t : String) (hl : adx.legacy = false) :
    cached adx t = adx.metricIngestors.bind (fun m => m.lookup t) := by
  simp [cached, hl]

theorem cached_of_legacy (adx : AzureDataExplorer) (t : String) (hl : adx.legacy = true) :
    cached adx t = (adx.ingesters.bind (fun m => m.lookup t)).join := by
  simp [cached, hl]

theorem getMetricIngestor_post (env : Env) (s : St) (t : String) (hl : s.adx.legacy = false)
    (r : Option Handle × Option Err) (s' : St)
    (h : getMetricIngestor env s t = some (r, s')) : AcquirePost s t r s' := by
  unfold getMetricIngestor at h
  cases hc : s.adx.metricIngestors.bind (fun m => m.lookup t) with
  | some ing =>
    rw [hc] at h
    simp only [Option.some.injEq, Prod.mk.injEq] at h
    obtain ⟨rfl, rfl⟩ := h
    refine ⟨rfl, ⟨[], by simp, by simp, by simp, by simp, by simp, fun _ => rfl⟩,
      fun _ _ h => h, fun _ => ?_, fun h => absurd rfl h, fun h => h⟩
    rw [cached_of_not_legacy _ _ hl, hc]
  | none =>
    rw [hc] at h
    simp only at h
    obtain ⟨ha1, evs1, ht1, hq1⟩ := createTable_frame env s t
    rcases h1 : createAzureDataExplorerTable env s t with ⟨r1, s1⟩
    rw [h1] at h ha1 ht1
    simp only at ha1 ht1
    have hcn : cached s.adx t = none := by rw [cached_of_not_legacy _ _ hl, hc]
    cases r1 with
    | some err =>
      simp only [Option.some.injEq, Prod.mk.injEq] at h
      obtain ⟨rfl, rfl⟩ := h
      refine ⟨by rw [ha1], ⟨evs1, ht1, fun e he => (hq1 e he).1, ?_, ?_, ?_, ?_⟩,
        fun u h hu => by rw [ha1]; exact hu, fun h => by simp at h,
        fun _ => ⟨ha1, rfl⟩, fun h => by rw [ha1]; exact h⟩
      · intro u _ e he
        have := List.countP_eq_zero.mp (countP_builds_quiet u evs1 hq1) e he
        simpa using this
      · rw [countP_builds_quiet t evs1 hq1]; exact Nat.zero_le _
      · rw [countP_builds_quiet t evs1 hq1]; intro h; exact absurd h (by decide)
      · intro h; exact absurd hcn h
    | none =>
      simp only at h
      obtain ⟨ha2, ht2⟩ := createIngestorByTable_frame env s1 s1.adx.kustoClient
        s1.adx.Database t s1.adx.IngestionType
      rcases h2 : createIngestorByTable env s1 s1.adx.kustoClient s1.adx.Database t
        s1.adx.IngestionType with ⟨r2, s2⟩
      rw [h2] at h ha2 ht2
      simp only at ha2 ht2
      cases r2 with
      | error err =>
        simp only [Option.some.injEq, Prod.mk.injEq] at h
        obtain ⟨rfl, rfl⟩ := h
        have hev : ∃ evs2, s2.trace = s1.trace ++ evs2 ∧
            ∀ e ∈ evs2, e.isSubmit = false ∧ ∀ u, e.builds u = false := by
          rcases ht2 with ⟨h, _⟩ | ⟨mg, h⟩
          · exact ⟨[], by simp [h], by simp⟩
          · exact ⟨_, h, by simp [Event.isSubmit, Event.builds]⟩
        obtain ⟨evs2, ht2', hq2⟩ := hev
        have hb : ∀ u, (evs1 ++ evs2).countP (Event.builds u) = 0 := by
          intro u
          rw [List.countP_append, countP_builds_quiet u evs1 hq1, List.countP_eq_zero.mpr]
          intro e he
          simp [(hq2 e he).2 u]
        refine ⟨by rw [ha2, ha1], ⟨evs1 ++ evs2, by rw [ht2', ht1, List.append_assoc], ?_, ?_,
          ?_, ?_, ?_⟩, fun u h hu => by rw [ha2, ha1]; exact hu, fun h => by simp at h,
          fun _ => ⟨by rw [ha2, ha1], rfl⟩, fun h => by rw [ha2, ha1]; exact h⟩
        · intro e he
          rcases List.mem_append.mp he with h | h
          · exact (hq1 e h).1
          · exact (hq2 e h).1
        · intro u _ e he
          have := List.countP_eq_zero.mp (hb u) e he
          simpa using this
        · rw [hb t]; exact Nat.zero_le _
        · rw [hb t]; intro h; exact absurd h (by decide)
        · intro h; exact absurd hcn h
      | ok tmp =>
        simp only at h
        cases hm : s2.adx.metricIngestors with
        | none => rw [hm] at h; exact absurd h (by simp)
        | some m =>
          rw [hm] at h
          simp only [Option.some.injEq, Prod.mk.injEq] at h
          obtain ⟨rfl, rfl⟩ := h
          have hl2 : s2.adx.legacy = false := by rw [ha2, ha1]; exact hl
          have hev : ∃ mg, s2.trace = s1.trace ++
                [Event.ingestNew mg s1.adx.kustoClient s1.adx.Database t (.ok tmp)] := by
            rcases ht2 with ⟨_, e, h⟩ | ⟨mg, h⟩
            · exact absurd h (by simp)
            · exact ⟨mg, h⟩
          obtain ⟨mg, ht2'⟩ := hev
          have hcfg : ∀ a : AzureDataExplorer, a.legacy = false →
              cached { a with metricIngestors := some (m.insert t tmp) } t = some tmp := by
            intro a ha
            have : ({ a with metricIngestors := some (m.insert t tmp) } : AzureDataExplorer).legacy
                = false := ha
            rw [cached_of_not_legacy _ _ this]
            simp
          refine ⟨?_, ⟨evs1 ++ [Event.ingestNew mg s1.adx.kustoClient s1.adx.Database t (.ok tmp),
              Event.log .debug "Ingestor for table %s created" [t]], ?_, ?_, ?_, ?_, ?_, ?_⟩,
            ?_, ?_, fun h => absurd rfl h, ?_⟩
          · show ({ s2.adx with metricIngestors := some (m.insert t tmp) } : AzureDataExplorer).config
              = s.adx.config
            rw [← ha1, ← ha2]; rfl
          · simp [logf, St.emit, ht2', ht1]
          · intro e he
            rcases List.mem_append.mp he with h | h
            · exact (hq1 e h).1
            · simp at h; rcases h with rfl | rfl <;> rfl
          · intro u hu e he
            rcases List.mem_append.mp he with h | h
            · have := List.countP_eq_zero.mp (countP_builds_quiet u evs1 hq1) e h
              simpa using this
            · simp at h
              rcases h with rfl | rfl
              · simp [Event.builds]; exact fun h => hu h.symm
              · rfl
          · rw [List.countP_append, countP_builds_quiet t evs1 hq1]
            simp [List.countP_cons, Event.builds]
          · intro _
            show cached ({ s2.adx with metricIngestors := some (m.insert t tmp) } : AzureDataExplorer) t
              ≠ none
            rw [hcfg _ hl2]; simp
          · intro h; exact absurd hcn h
          · intro u hh hu
            show cached ({ s2.adx with metricIngestors := some (m.insert t tmp) } : AzureDataExplorer) u
              = some hh
            have hl3 : ({ s2.adx with metricIngestors := some (m.insert t tmp) } :
                AzureDataExplorer).legacy = false := hl2
            rw [cached_of_not_legacy _ _ hl3]
            rw [cached_of_not_legacy _ _ hl, ← ha1, ← ha2, hm] at hu
            simp only [Option.some_bind] at hu ⊢
            rw [lookup_insert_ite]
            by_cases hut : u = t
            · subst hut
              rw [cached_of_not_legacy _ _ hl, ← ha1, ← ha2, hm] at hcn
              simp only [Option.some_bind] at hcn
              rw [hcn] at hu; exact absurd hu (by simp)
            · simp [hut, hu]
          · intro _
            show some tmp =
              cached ({ s2.adx with metricIngestors := some (m.insert t tmp) } : AzureDataExplorer) t
            rw [hcfg _ hl2]
          · intro _
            have hl3 : ({ s2.adx with metricIngestors := some (m.insert t tmp) } :
                AzureDataExplorer).legacy = false := hl2
            simp [Ready, logf, St.emit, hl3]

theorem getIngestor_post (env : Env) (s : St) (t : String) (hl : s.adx.legacy = true)
    (r : Option Handle × Option Err) (s' : St)
    (h : getIngestor env s t = some (r, s')) : AcquirePost s t r s' := by
  unfold getIngestor at h
  cases hc : (s.adx.ingesters.bind (fun m => m.lookup t)).join with
  | some ing =>
    rw [hc] at h
    simp only [Option.some.injEq, Prod.mk.injEq] at h
    obtain ⟨rfl, rfl⟩ := h
    refine ⟨rfl, ⟨[], by simp, by simp, by simp, by simp, by simp, fun _ => rfl⟩,
      fun _ _ h => h, fun _ => ?_, fun h => absurd rfl h, fun h => h⟩
    rw [cached_of_legacy _ _ hl, hc]
  | none =>
    rw [hc] at h
    simp only at h
    obtain ⟨ha1, evs1, ht1, hq1⟩ := createTable_frame env s t
    rcases h1 : createAzureDataExplorerTable env s t with ⟨r1, s1⟩
    rw [h1] at h ha1 ht1
    simp only at ha1 ht1
    have hcn : cached s.adx t = none := by rw [cached_of_legacy _ _ hl, hc]
    cases r1 with
    | some err =>
      simp only [Option.some.injEq, Prod.mk.injEq] at h
      obtain ⟨rfl, rfl⟩ := h
      refine ⟨by rw [ha1], ⟨evs1, ht1, fun e he => (hq1 e he).1, ?_, ?_, ?_, ?_⟩,
        fun u h hu => by rw [ha1]; exact hu, fun h => by simp at h,
        fun _ => ⟨ha1, rfl⟩, fun h => by rw [ha1]; exact h⟩
      · intro u _ e he
        have := List.countP_eq_zero.mp (countP_builds_quiet u evs1 hq1) e he
        simpa using this
      · rw [countP_builds_quiet t evs1 hq1]; exact Nat.zero_le _
      · rw [countP_builds_quiet t evs1 hq1]; intro h; exact absurd h (by decide)
      · intro h; exact absurd hcn h
    | none =>
      simp only at h
      unfold factoryCall at h
      cases hf : s1.adx.createIngestor with
      | none => rw [hf] at h; exact absurd h (by simp)
      | some f =>
        rw [hf] at h
        simp only at h
        rcases hr : env.factory s1.trace f s1.adx.client s1.adx.Database t with ⟨oh, oerr⟩
        rw [hr] at h
        cases oerr with
        | some err =>
          simp only [Option.some.injEq, Prod.mk.injEq] at h
          obtain ⟨rfl, rfl⟩ := h
          have hb : ∀ u, (evs1 ++ [Event.createIngestor f s1.adx.client s1.adx.Database t
              (oh, some err)]).countP (Event.builds u) = 0 := by
            intro u
            rw [List.countP_append, countP_builds_quiet u evs1 hq1]
            simp [List.countP_cons, Event.builds]
          refine ⟨by simp [St.emit, ha1], ⟨evs1 ++ [Event.createIngestor f s1.adx.client s1.adx.Database t
              (oh, some err)], by simp [St.emit, ht1], ?_, ?_,
            ?_, ?_, ?_⟩, fun u h hu => by simpa [St.emit, ha1] using hu, fun h => by simp at h,
            fun _ => ⟨by simp [St.emit, ha1], rfl⟩, fun h => by simpa [St.emit, ha1] using h⟩
          · intro e he
            rcases List.mem_append.mp he with h | h
            · exact (hq1 e h).1
            · simp at h; subst h; rfl
          · intro u _ e he
            have := List.countP_eq_zero.mp (hb u) e he
            simpa using this
          · rw [hb t]; exact Nat.zero_le _
          · rw [hb t]; intro h; exact absurd h (by decide)
          · intro h; exact absurd hcn h
        | none =>
          simp only [St.emit] at h
          cases hm : s1.adx.ingesters with
          | none => rw [hm] at h; exact absurd h (by simp)
          | some m =>
            rw [hm] at h
            simp only [Option.some.injEq, Prod.mk.injEq] at h
            obtain ⟨rfl, rfl⟩ := h
            have hl1 : s1.adx.legacy = true := by rw [ha1]; exact hl
            have hcfg : ∀ u, cached ({ s1.adx with ingesters := some (m.insert t oh) } :
                AzureDataExplorer) u = if u = t then oh else cached s1.adx u := by
              intro u
              have hl3 : ({ s1.adx with ingesters := some (m.insert t oh) } :
                  AzureDataExplorer).legacy = true := hl1
              rw [cached_of_legacy _ _ hl3, cached_of_legacy _ _ hl1, hm]
              simp only [Option.some_bind]
              rw [lookup_insert_ite]
              by_cases hut : u = t
              · simp [hut]
              · simp [hut]
            refine ⟨?_, ⟨evs1 ++ [Event.createIngestor f s1.adx.client s1.adx.Database t (oh, none)],
                ?_, ?_, ?_, ?_, ?_, ?_⟩, ?_, ?_, fun h => absurd rfl h, ?_⟩
            · show ({ s1.adx with ingesters := some (m.insert t oh) } : AzureDataExplorer).config
                = s.adx.config
              rw [← ha1]; rfl
            · simp [ht1]
            · intro e he
              rcases List.mem_append.mp he with h | h
              · exact (hq1 e h).1
              · simp at h; subst h; rfl
            · intro u hu e he
              rcases List.mem_append.mp he with h | h
              · have := List.countP_eq_zero.mp (countP_builds_quiet u evs1 hq1) e h
                simpa using this
              · simp at h
                subst h
                cases oh with
                | none => rfl
                | some hh => simp [Event.builds]; exact fun h => hu h.symm
            · rw [List.countP_append, countP_builds_quiet t evs1 hq1]
              cases oh <;> simp [List.countP_cons, Event.builds]
            · intro hcount
              show cached ({ s1.adx with ingesters := some (m.insert t oh) } : AzureDataExplorer) t
                ≠ none
              rw [hcfg t]
              rw [List.countP_append, countP_builds_quiet t evs1 hq1] at hcount
              cases oh with
              | none => simp [List.countP_cons, Event.builds] at hcount
              | some hh => simp
            · intro h; exact absurd hcn h
            · intro u hh hu
              show cached ({ s1.adx with ingesters := some (m.insert t oh) } : AzureDataExplorer) u
                = some hh
              rw [hcfg u]
              rw [← ha1] at hu hcn
              by_cases hut : u = t
              · subst hut; rw [hcn] at hu; exact absurd hu (by simp)
              · simp [hut, hu]
            · intro _
              show oh =
                cached ({ s1.adx with ingesters := some (m.insert t oh) } : AzureDataExplorer) t
              rw [hcfg t]; simp
            · intro _
              have hl3 : ({ s1.adx with ingesters := some (m.insert t oh) } :
                  AzureDataExplorer).legacy = true := hl1
              simp [Ready, hl3]

theorem acquire_post (env : Env) (s : St) (t : String)
    (r : Option Handle × Option Err) (s' : St)
    (h : acquire env s t = some (r, s')) : AcquirePost s t r s' := by
  unfold acquire at h
  cases hl : s.adx.legacy with
  | true => rw [hl] at h; exact getIngestor_post env s t hl r s' h
  | false => rw [hl] at h; exact getMetricIngestor_post env s t hl r s' h

/-- A cached handle is returned as it is: the connector and the trace stay put. -/
theorem acquire_hit (env : Env) (s : St) (t : String) (hh : Handle)
    (hc : cached s.adx t = some hh) : acquire env s t = some ((some hh, none), s) := by
  unfold acquire
  cases hl : s.adx.legacy with
  | true =>
    rw [cached_of_legacy _ _ hl] at hc
    unfold getIngestor
    rw [hc]
    rfl
  | false =>
    rw [cached_of_not_legacy _ _ hl] at hc
    unfold getMetricIngestor
    rw [hc]
    rfl

theorem legacy_of_config {a b : AzureDataExplorer} (h : a.config = b.config) : a.legacy = b.legacy := by
  show a.config.legacy = b.config.legacy
  rw [h]

theorem provisions_of_config (env : Env) {a b : AzureDataExplorer} (h : a.config = b.config)
    (t : String) (hp : Provisions env a t) : Provisions env b t := by
  have h1 : a.config.CreateTables = b.config.CreateTables := by rw [h]
  have h2 : a.config.Database = b.config.Database := by rw [h]
  have h3 : a.config.IngestionType = b.config.IngestionType := by rw [h]
  have h4 : a.config.kustoClient = b.config.kustoClient := by rw [h]
  change a.CreateTables = b.CreateTables at h1
  change a.Database = b.Database at h2
  change a.IngestionType = b.IngestionType at h3
  change a.kustoClient = b.kustoClient at h4
  have h5 := legacy_of_config h
  unfold Provisions at hp ⊢
  rw [← h1, ← h2, ← h3, ← h4, ← h5]
  exact hp

theorem execStmt_ok (env : Env) (s : St) (stmt : String)
    (h : ∀ tr lg c, env.mgmt tr lg c s.adx.Database stmt = none) :
    (execStmt env s stmt).1 = none := by
  unfold execStmt
  cases s.adx.client with
  | some c => exact h _ _ _
  | none =>
    cases s.adx.kustoClient with
    | some k => exact h _ _ _
    | none => rfl

theorem createTable_ok (env : Env) (s : St) (t : String)
    (h : s.adx.CreateTables = true → ∀ tr lg c,
      env.mgmt tr lg c s.adx.Database (createTableCommand t) = none ∧
      env.mgmt tr lg c s.adx.Database (createTableMappingCommand t t) = none) :
    (createAzureDataExplorerTable env s t).1 = none := by
  unfold createAzureDataExplorerTable
  by_cases hc : s.adx.CreateTables
  · simp only [hc, Bool.not_true, Bool.false_eq_true, if_false]
    have h1 := execStmt_ok env s (createTableCommand t) (fun tr lg c => (h hc tr lg c).1)
    have ha1 := (execStmt_frame env s (createTableCommand t)).1
    rcases he1 : execStmt env s (createTableCommand t) with ⟨r1, s1⟩
    rw [he1] at h1 ha1
    simp only at h1 ha1
    subst h1
    simp only
    have h2 := execStmt_ok env s1 (createTableMappingCommand t t)
      (fun tr lg c => by rw [ha1]; exact (h hc tr lg c).2)
    rcases he2 : execStmt env s1 (createTableMappingCommand t t) with ⟨r2, s2⟩
    rw [he2] at h2
    simp only at h2
    subst h2
    rfl
  · simp only [hc, Bool.not_false, if_true]

/-- A connector whose cache can be written to always gets an answer from a lookup. -/
theorem acquire_total (env : Env) (s : St) (t : String) (hr : Ready s.adx) :
    ∃ r s', acquire env s t = some (r, s') := by
  unfold acquire
  have ha1 := (createTable_frame env s t).1
  cases hl : s.adx.legacy with
  | true =>
    simp only [if_true]
    unfold getIngestor
    cases (s.adx.ingesters.bind (fun m => m.lookup t)).join with
    | some ing => exact ⟨_, _, rfl⟩
    | none =>
      simp only
      rcases h1 : createAzureDataExplorerTable env s t with ⟨r1, s1⟩
      rw [h1] at ha1
      simp only at ha1
      cases r1 with
      | some err => exact ⟨_, _, rfl⟩
      | none =>
        simp only
        have hl1 : s1.adx.legacy = true := by rw [ha1]; exact hl
        unfold AzureDataExplorer.legacy at hl1
        simp only [Bool.and_eq_true, Option.isSome_iff_exists] at hl1
        obtain ⟨-, ⟨f, hf⟩⟩ := hl1
        unfold factoryCall
        rw [hf]
        simp only
        rcases env.factory s1.trace f s1.adx.client s1.adx.Database t with ⟨oh, oerr⟩
        cases oerr with
        | some err => exact ⟨_, _, rfl⟩
        | none =>
          simp only [St.emit]
          have : s1.adx.ingesters ≠ none := by
            rw [ha1]; simpa [Ready, hl] using hr
          cases hm : s1.adx.ingesters with
          | none => exact absurd hm this
          | some m => exact ⟨_, _, rfl⟩
  | false =>
    simp only [Bool.false_eq_true, if_false]
    unfold getMetricIngestor
    cases s.adx.metricIngestors.bind (fun m => m.lookup t) with
    | some ing => exact ⟨_, _, rfl⟩
    | none =>
      simp only
      rcases h1 : createAzureDataExplorerTable env s t with ⟨r1, s1⟩
      rw [h1] at ha1
      simp only at ha1
      cases r1 with
      | some err => exact ⟨_, _, rfl⟩
      | none =>
        simp only
        have ha2 := (createIngestorByTable_frame env s1 s1.adx.kustoClient
          s1.adx.Database t s1.adx.IngestionType).1
        rcases h2 : createIngestorByTable env s1 s1.adx.kustoClient s1.adx.Database t
          s1.adx.IngestionType with ⟨r2, s2⟩
        rw [h2] at ha2
        simp only at ha2
        cases r2 with
        | error err => exact ⟨_, _, rfl⟩
        | ok tmp =>
          simp only
          have : s2.adx.metricIngestors ≠ none := by
            rw [ha2, ha1]; simpa [Ready, hl] using hr
          cases hm : s2.adx.metricIngestors with
          | none => exact absurd hm this
          | some m => exact ⟨_, _, rfl⟩

/-- A table that obtains an ingestor gets a handle from the lookup. -/
theorem acquire_obtains (env : Env) (s : St) (t : String) (ho : Obtains env s.adx t) :
    ∃ h s', acquire env s t = some ((some h, none), s') := by
  cases hc : cached s.adx t with
  | some h => exact ⟨h, s, acquire_hit env s t h hc⟩
  | none =>
    rcases ho with ho | ⟨hr, hp⟩
    · exact absurd hc ho
    · obtain ⟨hmg, hcons⟩ := hp
      have ha1 := (createTable_frame env s t).1
      have hok := createTable_ok env s t hmg
      unfold acquire
      cases hl : s.adx.legacy with
      | true =>
        simp only [if_true]
        rw [cached_of_legacy _ _ hl] at hc
        rw [hl] at hcons
        simp only [if_true] at hcons
        unfold getIngestor
        rw [hc]
        simp only
        rcases h1 : createAzureDataExplorerTable env s t with ⟨r1, s1⟩
        rw [h1] at ha1 hok
        simp only at ha1 hok
        subst hok
        simp only
        have hl1 : s1.adx.legacy = true := by rw [ha1]; exact hl
        unfold AzureDataExplorer.legacy at hl1
        simp only [Bool.and_eq_true, Option.isSome_iff_exists] at hl1
        obtain ⟨-, ⟨f, hf⟩⟩ := hl1
        unfold factoryCall
        rw [hf]
        simp only
        obtain ⟨h, hh⟩ := hcons s1.trace f s.adx.client
        rw [ha1, hh]
        simp only [St.emit]
        have : s1.adx.ingesters ≠ none := by
          rw [ha1]; simpa [Ready, hl] using hr
        cases hm : s1.adx.ingesters with
        | none => exact absurd hm this
        | some m => exact ⟨h, _, rfl⟩
      | false =>
        simp only [Bool.false_eq_true, if_false]
        rw [cached_of_not_legacy _ _ hl] at hc
        rw [hl] at hcons
        simp only [Bool.false_eq_true, if_false] at hcons
        obtain ⟨hty, hnew⟩ := hcons
        unfold getMetricIngestor
        rw [hc]
        simp only
        rcases h1 : createAzureDataExplorerTable env s t with ⟨r1, s1⟩
        rw [h1] at ha1 hok
        simp only at ha1 hok
        subst hok
        simp only
        have hci : ∃ h s2, createIngestorByTable env s1 s1.adx.kustoClient s1.adx.Database t
            s1.adx.IngestionType = (.ok h, s2) ∧ s2.adx = s1.adx := by
          unfold createIngestorByTable ingestNewCall
          rw [ha1]
          by_cases hm : env.toLower s.adx.IngestionType = managedIngestion
          · rw [if_pos hm]
            obtain ⟨h, hh⟩ := hnew s1.trace true
            exact ⟨h, s1.emit (Event.ingestNew true s.adx.kustoClient s.adx.Database t (.ok h)),
              by simp only [hh], ha1 ▸ rfl⟩
          · rw [if_neg hm, if_pos (hty.resolve_left hm)]
            obtain ⟨h, hh⟩ := hnew s1.trace false
            exact ⟨h, s1.emit (Event.ingestNew false s.adx.kustoClient s.adx.Database t (.ok h)),
              by simp only [hh], ha1 ▸ rfl⟩
        obtain ⟨h, s2, h2, ha2⟩ := hci
        rw [h2]
        simp only
        have : s2.adx.metricIngestors ≠ none := by
          rw [ha2, ha1]; simpa [Ready, hl] using hr
        cases hm : s2.adx.metricIngestors with
        | none => exact absurd hm this
        | some m => exact ⟨h, _, rfl⟩

theorem submissions_append (a b : List Event) :
    submissions (a ++ b) = submissions a ++ submissions b := by
  induction a with
  | nil => rfl
  | cons e rest ih => cases e <;> simp [submissions, ih]

theorem submissions_quiet (evs : List Event) (h : ∀ e ∈ evs, e.isSubmit = false) :
    submissions evs = [] := by
  induction evs with
  | nil => rfl
  | cons e rest ih =>
    have hrest := ih (fun x hx => h x (List.mem_cons_of_mem _ hx))
    have he := h e (List.mem_cons_self _ _)
    cases e <;> simp_all [submissions, Event.isSubmit]

/-- The trace `submit` adds holds exactly one ingestion job. -/
theorem submit_frame (env : Env) (s : St) (lg : Bool) (t : String) (h : Handle)
    (b : Bytes) (mapping : String) :
    (submit env s lg t h b mapping).adx = s.adx ∧
    ∃ evs, (submit env s lg t h b mapping).trace = s.trace ++ evs ∧
      submissions evs = [(t, b)] ∧ ∀ e ∈ evs, ∀ u, e.builds u = false := by
  unfold submit
  cases env.fromReader s.trace h b mapping with
  | some err =>
    exact ⟨rfl, [Event.fromReader lg t h b mapping (some err), Event.log .error
      "sending ingestion request to Azure Data Explorer for table %q failed: %v" [t]],
      by simp [logf, St.emit], rfl, by simp [Event.builds]⟩
  | none =>
    exact ⟨rfl, [Event.fromReader lg t h b mapping none], rfl, rfl, by simp [Event.builds]⟩

/-- A push whose lookup returns a handle succeeds and submits exactly one job. -/
theorem pushMetrics_handle (env : Env) (s : St) (t : String) (b : Bytes) (h : Handle)
    (s1 : St) (hacq : acquire env s t = some ((some h, none), s1)) :
    ∃ s', pushMetrics env s t b = some (none, s') ∧ s'.adx = s1.adx ∧
      ∃ evs, s'.trace = s.trace ++ evs ∧ submissions evs = [(t, b)] := by
  obtain ⟨-, ⟨evs1, ht1, hq1, -, -, -, -⟩, -, -, -, -⟩ := acquire_post env s t _ s1 hacq
  unfold pushMetrics
  rw [hacq]
  simp only
  obtain ⟨ha2, evs2, ht2, hs2, -⟩ := submit_frame env
    (logf s1 .debug "Writing %s metrics to table %q" [toString b.length, t])
    s.adx.legacy t h b (t ++ "_mapping")
  refine ⟨_, rfl, ha2, evs1 ++ [Event.log .debug "Writing %s metrics to table %q"
    [toString b.length, t]] ++ evs2, ?_, ?_⟩
  · rw [ht2]; simp [logf, St.emit, ht1]
  · rw [submissions_append, submissions_append, submissions_quiet evs1 hq1, hs2]
    rfl

/-- A push to a table that obtains an ingestor succeeds and submits exactly one
job, the given payload to the given table; what other tables have cached stays. -/
theorem pushMetrics_obtains (env : Env) (s : St) (t : String) (b : Bytes)
    (ho : Obtains env s.adx t) :
    ∃ s', pushMetrics env s t b = some (none, s') ∧ s'.adx.config = s.adx.config ∧
      (∀ u h, cached s.adx u = some h → cached s'.adx u = some h) ∧
      (Ready s.adx → Ready s'.adx) ∧
      ∃ evs, s'.trace = s.trace ++ evs ∧ submissions evs = [(t, b)] := by
  obtain ⟨h, s1, hacq⟩ := acquire_obtains env s t ho
  obtain ⟨hcfg, ⟨evs1, ht1, hq1, -, -, -, -⟩, hmono, -, -, hready⟩ :=
    acquire_post env s t _ s1 hacq
  unfold pushMetrics
  rw [hacq]
  simp only
  obtain ⟨ha2, evs2, ht2, hs2, -⟩ := submit_frame env
    (logf s1 .debug "Writing %s metrics to table %q" [toString b.length, t])
    s.adx.legacy t h b (t ++ "_mapping")
  refine ⟨_, rfl, ?_, ?_, ?_, evs1 ++ [Event.log .debug "Writing %s metrics to table %q"
    [toString b.length, t]] ++ evs2, ?_, ?_⟩
  · rw [ha2]; exact hcfg
  · intro u hh hu; rw [ha2]; exact hmono u hh hu
  · intro hr; rw [ha2]; exact hready hr
  · rw [ht2]; simp [logf, St.emit, ht1]
  · rw [submissions_append, submissions_append, submissions_quiet evs1 hq1, hs2]
    rfl

theorem obtains_mono (env : Env) {a b : AzureDataExplorer} (hcfg : b.config = a.config)
    (hmono : ∀ u h, cached a u = some h → cached b u = some h)
    (hready : Ready a → Ready b) (t : String) (ho : Obtains env a t) : Obtains env b t := by
  rcases ho with ho | ⟨hr, hp⟩
  · left
    cases hc : cached a t with
    | none => exact absurd hc ho
    | some h => rw [hmono t h hc]; simp
  · right
    exact ⟨hready hr, provisions_of_config env hcfg.symm t hp⟩

/-- A push loop all of whose lookups return a handle succeeds and submits
exactly the payloads it was given, in order. -/
theorem pushGroups_allObtain (env : Env) :
    ∀ (l : List (String × Bytes)) (s : St), AllObtain env l s →
      ∃ s', pushGroups env l s = some (none, s') ∧
        ∃ evs, s'.trace = s.trace ++ evs ∧ submissions evs = l := by
  intro l
  induction l with
  | nil => intro s _; exact ⟨s, rfl, [], by simp, rfl⟩
  | cons p rest ih =>
    intro s ho
    obtain ⟨t, b⟩ := p
    obtain ⟨⟨h, s1, hacq⟩, hrest⟩ := ho
    obtain ⟨s2, hpush, -, evs1, ht1, hs1⟩ := pushMetrics_handle env s t b h s1 hacq
    obtain ⟨s3, hloop, evs2, ht2, hs2⟩ := ih s2 (hrest none s2 hpush)
    refine ⟨s3, ?_, evs1 ++ evs2, ?_, ?_⟩
    · simp only [pushGroups, hpush, hloop]
    · rw [ht2, ht1, List.append_assoc]
    · rw [submissions_append, hs1, hs2]; rfl

/-- Tables that have a handle cached, or can be provisioned whenever tried, all
obtain an ingestor along the push loop. -/
theorem allObtain_of_obtains (env : Env) :
    ∀ (l : List (String × Bytes)) (s : St), (∀ p ∈ l, Obtains env s.adx p.1) →
      AllObtain env l s := by
  intro l
  induction l with
  | nil => intro s _; trivial
  | cons p rest ih =>
    intro s ho
    obtain ⟨t, b⟩ := p
    have hot := ho (t, b) (List.mem_cons_self _ _)
    obtain ⟨s1, hpush, hcfg, hmono, hready, -⟩ := pushMetrics_obtains env s t b hot
    refine ⟨acquire_obtains env s t hot, fun r s2 hp => ?_⟩
    rw [hpush] at hp
    simp only [Option.some.injEq, Prod.mk.injEq] at hp
    obtain ⟨-, rfl⟩ := hp
    exact ih s1 (fun q hq =>
      obtains_mono env hcfg hmono hready q.1 (ho q (List.mem_cons_of_mem _ hq)))

theorem filterMap_pair_fst {V : Type} (f : String → Option V) :
    ∀ l : List String, (∀ k ∈ l, f k ≠ none) →
      (l.filterMap (fun k => (f k).map (fun v => (k, v)))).map Prod.fst = l := by
  intro l
  induction l with
  | nil => intro _; rfl
  | cons k rest ih =>
    intro h
    have hk := h k (List.mem_cons_self _ _)
    cases hf : f k with
    | none => exact absurd hf hk
    | some v =>
      simp only [List.filterMap_cons, hf, Option.map_some', List.map_cons]
      rw [ih (fun x hx => h x (List.mem_cons_of_mem _ hx))]

/-- A `range` over a map visits every key exactly once. -/
theorem rangeEntries_fst {V : Type} (env : Env) (tr : List Event) (m : GoMap V) :
    ((rangeEntries env tr m).map Prod.fst).Perm m.keys := by
  unfold rangeEntries
  rw [filterMap_pair_fst]
  · exact env.rangeOrder_perm tr m.keys
  · intro k hk
    have hk' : k ∈ m.keys := (env.rangeOrder_perm tr m.keys).subset hk
    have := AList.lookup_isSome.mpr (AList.mem_keys.mpr hk')
    intro hn
    rw [hn] at this
    exact Bool.noConfusion this

theorem rangeEntries_lookup {V : Type} (env : Env) (tr : List Event) (m : GoMap V)
    (p : String × V) (hp : p ∈ rangeEntries env tr m) : m.lookup p.1 = some p.2 := by
  unfold rangeEntries at hp
  rw [List.mem_filterMap] at hp
  obtain ⟨k, -, hk⟩ := hp
  cases hl : m.lookup k with
  | none => rw [hl] at hk; exact absurd hk (by simp)
  | some v =>
    rw [hl] at hk
    simp only [Option.map_some', Option.some.injEq] at hk
    subst hk
    exact hl

/-! ## Per-table delivery -/

/-- C3: in tablepermetric mode, when every metric serializes and every ingestor
lookup made for the tables of the batch returns a handle, `Write` returns success
and the ingestion jobs it submitted are exactly one per distinct metric name,
each carrying that name's payload, whatever the store answers to each submission. -/
theorem write_tablePerMetric_submits (env : Env) (s : St) (z : Serializer)
    (ser : Metric → Bytes) (metrics : List Metric)
    (hmode : s.adx.MetricsGrouping = tablePerMetric)
    (hz : s.adx.serializer = some z)
    (hser : ∀ m ∈ metrics, env.serialize z m = .ok (ser m))
    (hobt : ∀ groups, tableMetricGroups env s.adx metrics ∅ = some (.ok groups) →
      AllObtain env (rangeEntries env s.trace groups) s) :
    ∃ s' evs, Write env s metrics = some (none, s') ∧ s'.trace = s.trace ++ evs ∧
      ((submissions evs).map Prod.fst).Perm (metrics.map Metric.name).dedup ∧
      ∀ p ∈ submissions evs,
        p.2 = ((metrics.filter (fun m => m.name = p.1)).map ser).flatten := by
  obtain ⟨groups, hrun, hkeys, -, hlook⟩ :=
    tableMetricGroups_empty env s.adx z ser metrics hz hser
  have hfst := rangeEntries_fst env s.trace groups
  obtain ⟨s', hpush, evs, ht, hsub⟩ :=
    pushGroups_allObtain env (rangeEntries env s.trace groups) s (hobt groups hrun)
  refine ⟨s', evs, ?_, ht, ?_, ?_⟩
  · simp only [Write, hmode, if_true, writeTablePerMetric, hrun, hpush]
  · rw [hsub]
    refine hfst.trans ?_
    rw [List.perm_ext_iff_of_nodup groups.keys_nodup (List.nodup_dedup _)]
    intro n
    rw [hkeys n, List.mem_dedup]
  · intro p hp
    rw [hsub] at hp
    have h1 := rangeEntries_lookup env s.trace groups p hp
    have : p.1 ∈ groups.keys := hfst.subset (List.mem_map_of_mem _ hp)
    rw [hlook p.1 ((hkeys p.1).mp this)] at h1
    exact (Option.some.inj h1).symm

/-- The premise of C3 holds in particular when every table of the batch has a
handle cached or can be provisioned whenever that is tried. -/
theorem allObtain_of_batch (env : Env) (s : St) (z : Serializer)
    (ser : Metric → Bytes) (metrics : List Metric)
    (hz : s.adx.serializer = some z)
    (hser : ∀ m ∈ metrics, env.serialize z m = .ok (ser m))
    (hobt : ∀ m ∈ metrics, Obtains env s.adx m.name) :
    ∀ groups, tableMetricGroups env s.adx metrics ∅ = some (.ok groups) →
      AllObtain env (rangeEntries env s.trace groups) s := by
  intro groups hg
  obtain ⟨groups', hrun, hkeys, -, -⟩ :=
    tableMetricGroups_empty env s.adx z ser metrics hz hser
  rw [hrun] at hg
  simp only [Option.some.injEq, Except.ok.injEq] at hg
  subst hg
  apply allObtain_of_obtains
  intro p hp
  have : p.1 ∈ groups'.keys :=
    (rangeEntries_fst env s.trace groups').subset (List.mem_map_of_mem _ hp)
  obtain ⟨m, hm, hn⟩ := List.mem_map.mp ((hkeys p.1).mp this)
  rw [← hn]
  exact hobt m hm

/-! ## Single table -/

theorem metricsArray_ok (env : Env) (adx : AzureDataExplorer) (z : Serializer)
    (ser : Metric → Bytes) (hz : adx.serializer = some z) :
    ∀ (metrics : List Metric) (acc : Bytes),
      (∀ m ∈ metrics, env.serialize z m = .ok (ser m)) →
      metricsArray env adx metrics acc = some (.ok (acc ++ (metrics.map ser).flatten)) := by
  intro metrics
  induction metrics with
  | nil => intro acc _; simp [metricsArray]
  | cons m rest ih =>
    intro acc hser
    have hm := hser m (List.mem_cons_self _ _)
    simp only [metricsArray, hz, hm]
    rw [ih (acc ++ ser m) (fun x hx => hser x (List.mem_cons_of_mem _ hx))]
    simp

/-- In singletable mode `Write` is one push of the whole batch, serialized in
arrival order, to the configured table. -/
theorem write_singleTable_eq (env : Env) (s : St) (z : Serializer)
    (ser : Metric → Bytes) (metrics : List Metric)
    (hmode : s.adx.MetricsGrouping = singleTable)
    (hz : s.adx.serializer = some z)
    (hser : ∀ m ∈ metrics, env.serialize z m = .ok (ser m)) :
    Write env s metrics = pushMetrics env s s.adx.TableName (metrics.map ser).flatten := by
  have hne : ¬ s.adx.MetricsGrouping = tablePerMetric := by
    rw [hmode]; decide
  have := metricsArray_ok env s.adx z ser hz metrics [] hser
  simp only [Write, hne, if_false, writeSingleTable, this, List.nil_append]

/-- C9, amended: in singletable mode, when every metric serializes and the lookup
for the configured table returns a handle, `Write` returns success and submits
exactly one ingestion job: to the configured table, with the serialized bytes of
all metrics of the batch concatenated in arrival order. -/
theorem write_singleTable_submits (env : Env) (s : St) (z : Serializer)
    (ser : Metric → Bytes) (metrics : List Metric) (h : Handle) (s1 : St)
    (hmode : s.adx.MetricsGrouping = singleTable)
    (hz : s.adx.serializer = some z)
    (hser : ∀ m ∈ metrics, env.serialize z m = .ok (ser m))
    (hacq : acquire env s s.adx.TableName = some ((some h, none), s1)) :
    ∃ s' evs, Write env s metrics = some (none, s') ∧ s'.trace = s.trace ++ evs ∧
      submissions evs = [(s.adx.TableName, (metrics.map ser).flatten)] := by
  rw [write_singleTable_eq env s z ser metrics hmode hz hser]
  obtain ⟨s', hpush, -, evs, ht, hs⟩ :=
    pushMetrics_handle env s s.adx.TableName (metrics.map ser).flatten h s1 hacq
  exact ⟨s', evs, hpush, ht, hs⟩

/-! ## Serialization failures -/

theorem tableMetricGroups_error (env : Env) (adx : AzureDataExplorer) (z : Serializer)
    (m : Metric) (post : List Metric) (e : Err) (hz : adx.serializer = some z)
    (hm : env.serialize z m = .error e) :
    ∀ (pre : List Metric) (g : GoMap Bytes),
      (∀ x ∈ pre, ∃ b, env.serialize z x = .ok b) →
      tableMetricGroups env adx (pre ++ m :: post) g = some (.error e) := by
  intro pre
  induction pre with
  | nil => intro g _; simp [tableMetricGroups, hz, hm]
  | cons x rest ih =>
    intro g hpre
    obtain ⟨b, hb⟩ := hpre x (List.mem_cons_self _ _)
    have hrest := fun y hy => hpre y (List.mem_cons_of_mem _ hy)
    simp only [List.cons_append, tableMetricGroups, hz, hb]
    cases g.lookup x.name with
    | some existing => exact ih _ hrest
    | none => exact ih _ hrest

theorem metricsArray_error (env : Env) (adx : AzureDataExplorer) (z : Serializer)
    (m : Metric) (post : List Metric) (e : Err) (hz : adx.serializer = some z)
    (hm : env.serialize z m = .error e) :
    ∀ (pre : List Metric) (acc : Bytes),
      (∀ x ∈ pre, ∃ b, env.serialize z x = .ok b) →
      metricsArray env adx (pre ++ m :: post) acc = some (.error e) := by
  intro pre
  induction pre with
  | nil => intro acc _; simp [metricsArray, hz, hm]
  | cons x rest ih =>
    intro acc hpre
    obtain ⟨b, hb⟩ := hpre x (List.mem_cons_self _ _)
    simp only [List.cons_append, metricsArray, hz, hb]
    exact ih _ (fun y hy => hpre y (List.mem_cons_of_mem _ hy))

/-- A batch with a metric that does not serialize splits at the first such metric. -/
theorem first_serialize_error (env : Env) (z : Serializer) :
    ∀ metrics : List Metric, (∃ m ∈ metrics, ∃ e, env.serialize z m = .error e) →
      ∃ pre m post e, metrics = pre ++ m :: post ∧
        (∀ x ∈ pre, ∃ b, env.serialize z x = .ok b) ∧ env.serialize z m = .error e := by
  intro metrics
  induction metrics with
  | nil => rintro ⟨m, hm, -⟩; exact absurd hm (List.not_mem_nil m)
  | cons x rest ih =>
    intro hfail
    cases hx : env.serialize z x with
    | error e => exact ⟨[], x, rest, e, rfl, by simp, hx⟩
    | ok b =>
      have hrest : ∃ m ∈ rest, ∃ e, env.serialize z m = .error e := by
        obtain ⟨m, hm, e, he⟩ := hfail
        rcases List.mem_cons.mp hm with rfl | hm'
        · rw [hx] at he; exact Except.noConfusion he
        · exact ⟨m, hm', e, he⟩
      obtain ⟨pre, m, post, e, hsplit, hpre, hm⟩ := ih hrest
      refine ⟨x :: pre, m, post, e, by rw [hsplit]; rfl, ?_, hm⟩
      intro y hy
      rcases List.mem_cons.mp hy with rfl | hy'
      · exact ⟨b, hx⟩
      · exact hpre y hy'

/-- C4: in either grouping mode, when some metric of the batch fails to
serialize, `Write` returns the serialization error of a metric of the batch, the
first that fails, and leaves the connector and the trace exactly as they were: no
management statement, no ingestion submission, no change to the ingestor cache. -/
theorem write_serialize_error (env : Env) (s : St) (z : Serializer)
    (metrics : List Metric)
    (hz : s.adx.serializer = some z)
    (hfail : ∃ m ∈ metrics, ∃ e, env.serialize z m = .error e) :
    ∃ pre m post e, metrics = pre ++ m :: post ∧
      (∀ x ∈ pre, ∃ b, env.serialize z x = .ok b) ∧ env.serialize z m = .error e ∧
      Write env s metrics = some (some e, s) := by
  obtain ⟨pre, m, post, e, hsplit, hpre, hm⟩ := first_serialize_error env z metrics hfail
  refine ⟨pre, m, post, e, hsplit, hpre, hm, ?_⟩
  subst hsplit
  unfold Write
  by_cases hmode : s.adx.MetricsGrouping = tablePerMetric
  · rw [if_pos hmode]
    simp only [writeTablePerMetric,
      tableMetricGroups_error env s.adx z m post e hz hm pre ∅ hpre]
  · rw [if_neg hmode]
    simp only [writeSingleTable, metricsArray_error env s.adx z m post e hz hm pre [] hpre]

/-! ## Table provisioning switched off -/

/-- C10: with `CreateTables` off, `createAzureDataExplorerTable` returns success,
leaves the connector alone and adds nothing but one log line to the trace, so no
management statement is issued, whatever the table name and the clients. -/
theorem createTable_disabled (env : Env) (s : St) (tableName : String)
    (hoff : s.adx.CreateTables = false) :
    (createAzureDataExplorerTable env s tableName).1 = none ∧
    (createAzureDataExplorerTable env s tableName).2.adx = s.adx ∧
    (createAzureDataExplorerTable env s tableName).2.trace =
      s.trace ++ [Event.log .info "skipped table creation" []] ∧
    ((createAzureDataExplorerTable env s tableName).2.trace.filter Event.isMgmt) =
      s.trace.filter Event.isMgmt := by
  simp [createAzureDataExplorerTable, hoff, logf, St.emit, Event.isMgmt]

/-! ## Setup failures -/

/-- Any sequence of lookups on a connector whose cache can be written to runs to
its end; what was cached stays cached, and for each table at most one handle is
built, none when the table was cached from the start. -/
theorem lookups_post (env : Env) :
    ∀ (ts : List String) (s : St), Ready s.adx →
      ∃ rs s', lookups env ts s = some (rs, s') ∧ Ready s'.adx ∧
        (∀ u h, cached s.adx u = some h → cached s'.adx u = some h) ∧
        ∃ evs, s'.trace = s.trace ++ evs ∧
          ∀ u, evs.countP (Event.builds u) ≤ 1 ∧
            (cached s.adx u ≠ none → evs.countP (Event.builds u) = 0) ∧
            (evs.countP (Event.builds u) = 1 → cached s'.adx u ≠ none) := by
  intro ts
  induction ts with
  | nil =>
    intro s hr
    exact ⟨[], s, rfl, hr, fun _ _ h => h, [], by simp, fun u => by simp⟩
  | cons t rest ih =>
    intro s hr
    obtain ⟨r, s1, hacq⟩ := acquire_total env s t hr
    obtain ⟨-, ⟨evs1, ht1, -, hother, hle, hone, hhit⟩, hmono, -, -, hready⟩ :=
      acquire_post env s t r s1 hacq
    obtain ⟨rs, s2, hrun, hr2, hmono2, evs2, ht2, hcount⟩ := ih s1 (hready hr)
    refine ⟨r :: rs, s2, by simp only [lookups, hacq, hrun], hr2,
      fun u h hu => hmono2 u h (hmono u h hu), evs1 ++ evs2,
      by rw [ht2, ht1, List.append_assoc], fun u => ?_⟩
    obtain ⟨hle2, hzero2, hone2⟩ := hcount u
    have hmono' : cached s.adx u ≠ none → cached s1.adx u ≠ none := by
      intro h
      cases hc : cached s.adx u with
      | none => exact absurd hc h
      | some hh => rw [hmono u hh hc]; simp
    have hmono2' : cached s1.adx u ≠ none → cached s2.adx u ≠ none := by
      intro h
      cases hc : cached s1.adx u with
      | none => exact absurd hc h
      | some hh => rw [hmono2 u hh hc]; simp
    have h1 : evs1.countP (Event.builds u) ≤ 1 ∧
        (evs1.countP (Event.builds u) = 1 → cached s1.adx u ≠ none) ∧
        (cached s.adx u ≠ none → evs1.countP (Event.builds u) = 0) := by
      by_cases hut : u = t
      · subst hut
        exact ⟨hle, hone, fun h => by rw [hhit h]; rfl⟩
      · have hz : evs1.countP (Event.builds u) = 0 := by
          rw [List.countP_eq_zero]
          intro e he
          simp [hother u hut e he]
        exact ⟨by rw [hz]; exact Nat.zero_le _, fun h => by rw [hz] at h; exact absurd h (by decide),
          fun _ => hz⟩
    obtain ⟨hle1, hone1, hzero1⟩ := h1
    rw [List.countP_append]
    by_cases hb : evs1.countP (Event.builds u) = 1
    · have hz2 := hzero2 (hone1 hb)
      refine ⟨by omega, fun h => ?_, fun _ => hmono2' (hone1 hb)⟩
      have := hzero1 h
      omega
    · have hz1 : evs1.countP (Event.builds u) = 0 := by omega
      refine ⟨by omega, fun h => ?_, fun h => hone2 (by omega)⟩
      rw [hz1, hzero2 (hmono' h)]

/-- C6: on a connector whose cache can be written to, every sequence of lookups
runs to its end; once a lookup for a table has returned a handle, a later lookup
for that table returns the same handle and leaves the connector and the trace
untouched (no management statement, no construction); and over the whole sequence
at most one handle is built for each table name. -/
theorem lookup_once (env : Env) (s : St) (pre mid : List String) (t : String)
    (hready : Ready s.adx) :
    ∃ rs1 s1 r s2 rs3 s3 r' s4,
      lookups env pre s = some (rs1, s1) ∧ acquire env s1 t = some (r, s2) ∧
      lookups env mid s2 = some (rs3, s3) ∧ acquire env s3 t = some (r', s4) ∧
      (∀ h, r = (some h, none) → r' = (some h, none) ∧ s4 = s3) ∧
      ∃ evs, s4.trace = s.trace ++ evs ∧ ∀ u, evs.countP (Event.builds u) ≤ 1 := by
  have hseq : ∀ (a b : List String) (x : St), lookups env (a ++ b) x =
      match lookups env a x with
      | none => none
      | some (ra, xa) =>
        match lookups env b xa with
        | none => none
        | some (rb, xb) => some (ra ++ rb, xb) := by
    intro a
    induction a with
    | nil =>
      intro b x
      simp only [List.nil_append, lookups]
      cases lookups env b x with
      | none => rfl
      | some p => rfl
    | cons y rest ih =>
      intro b x
      simp only [List.cons_append, lookups]
      cases acquire env x y with
      | none => rfl
      | some p =>
        obtain ⟨ry, xy⟩ := p
        simp only
        rw [show rest.append b = rest ++ b from rfl, ih b xy]
        cases lookups env rest xy with
        | none => rfl
        | some q =>
          obtain ⟨rr, xr⟩ := q
          simp only
          cases lookups env b xr with
          | none => rfl
          | some w => rfl
  obtain ⟨rsall, sall, hall, -, -, evs, htr, hcount⟩ :=
    lookups_post env (pre ++ t :: (mid ++ [t])) s hready
  obtain ⟨rs1, s1, h1, hr1, -, -⟩ := lookups_post env pre s hready
  obtain ⟨r, s2, h2⟩ := acquire_total env s1 t hr1
  obtain ⟨-, -, hmono2, hret, -, hready2⟩ := acquire_post env s1 t r s2 h2
  obtain ⟨rs3, s3, h3, hr3, hmono3, -⟩ := lookups_post env mid s2 (hready2 hr1)
  obtain ⟨r', s4, h4⟩ := acquire_total env s3 t hr3
  refine ⟨rs1, s1, r, s2, rs3, s3, r', s4, h1, h2, h3, h4, ?_, evs, ?_, fun u => (hcount u).1⟩
  · intro h hr
    subst hr
    have hc2 : cached s2.adx t = some h := (hret rfl).symm
    have hc3 := hmono3 t h hc2
    have := acquire_hit env s3 t h hc3
    rw [this] at h4
    simp only [Option.some.injEq, Prod.mk.injEq] at h4
    exact ⟨h4.1.symm, h4.2.symm⟩
  · rw [hseq, h1] at hall
    simp only [lookups, h2] at hall
    rw [hseq, h3] at hall
    simp only [lookups, h4] at hall
    simp only [Option.some.injEq, Prod.mk.injEq] at hall
    rw [hall.2]
    exact htr

/-! ## Teardown -/

/-- C7, amended: when the JSON serializer can be built, `Init` returns an error
exactly when the endpoint is empty, or the database is empty, or the lower-cased
grouping mode is singletable and the table name is empty, or the lower-cased
grouping mode is neither empty nor tablepermetric nor singletable, or the ingestion
mode is neither empty nor queued nor managed (compared as written). -/
theorem init_rejects_iff (env : Env) (adx : AzureDataExplorer)
    (hser : ∃ z, env.newSerializer 1 "2006-01-02T15:04:05.999999999Z07:00" "" = .ok z) :
    (Init env adx).1 ≠ none ↔
      Rejected (env.toLower adx.MetricsGrouping) adx.IngestionType adx := by
  obtain ⟨z, hz⟩ := hser
  have c1 : ¬ ("" : String) = singleTable := by decide
  have c2 : ¬ managedIngestion = "" := by decide
  have c3 : ¬ queuedIngestion = "" := by decide
  have c4 : ¬ tablePerMetric = singleTable := by decide
  have c5 : ¬ ("" : String) = tablePerMetric := by decide
  have c6 : ¬ queuedIngestion = managedIngestion := by decide
  unfold Init Rejected
  by_cases h1 : adx.Endpoint = ""
  · simp [h1]
  by_cases h2 : adx.Database = ""
  · simp [h1, h2]
  by_cases h3 : env.toLower adx.MetricsGrouping = singleTable ∧ adx.TableName = ""
  · simp [h1, h2, h3]
  by_cases h4 : env.toLower adx.MetricsGrouping = ""
  · have hne : ¬ singleTable = "" := by decide
    have h4' : ¬ env.toLower adx.MetricsGrouping = singleTable := by rw [h4]; exact fun h => hne h.symm
    by_cases h6 : adx.IngestionType = ""
    · simp [h1, h2, h4, h4', h6, hz, hne, c1, c2, c3, c4, c5, c6]
    · by_cases h7 : adx.IngestionType = managedIngestion
      · simp [h1, h2, h4, h4', h6, h7, hz, hne, choiceContains, c1, c2, c3, c4, c5, c6]
      · by_cases h8 : adx.IngestionType = queuedIngestion
        · simp [h1, h2, h4, h4', h6, h8, hz, hne, choiceContains, c1, c2, c3, c4, c5, c6]
        · simp [h1, h2, h4, h4', h6, h7, h8, hz, hne, choiceContains, c1, c2, c3, c4, c5, c6]
  by_cases h5 : env.toLower adx.MetricsGrouping = singleTable ∨
      env.toLower adx.MetricsGrouping = tablePerMetric
  · have h3' : env.toLower adx.MetricsGrouping = singleTable → ¬ adx.TableName = "" :=
      fun h ht => h3 ⟨h, ht⟩
    have h5' : ¬ (¬ env.toLower adx.MetricsGrouping = tablePerMetric ∧
        ¬ env.toLower adx.MetricsGrouping = singleTable) := by
      rintro ⟨ha, hb⟩
      rcases h5 with h | h
      · exact hb h
      · exact ha h
    by_cases h6 : adx.IngestionType = ""
    · simp [h1, h2, h3, h4, h5, h5', h6, hz, c1, c2, c3, c4, c5, c6]
    · by_cases h7 : adx.IngestionType = managedIngestion
      · simp [h1, h2, h3, h4, h5, h5', h6, h7, hz, choiceContains, c1, c2, c3, c4, c5, c6]
      · by_cases h8 : adx.IngestionType = queuedIngestion
        · simp [h1, h2, h3, h4, h5, h5', h6, h8, hz, choiceContains, c1, c2, c3, c4, c5, c6]
        · simp [h1, h2, h3, h4, h5, h5', h6, h7, h8, hz, choiceContains, c1, c2, c3, c4, c5, c6]
  · have h5' : ¬ env.toLower adx.MetricsGrouping = tablePerMetric ∧
        ¬ env.toLower adx.MetricsGrouping = singleTable := by
      constructor
      · exact fun h => h5 (Or.inr h)
      · exact fun h => h5 (Or.inl h)
    simp [h1, h2, h3, h4, h5, h5', c1, c2, c3, c4, c5, c6]

/-- C7 as stated fails, however the mode strings are compared.  Compared as
written, the grouping mode `SingleTable` is none of the empty string,
`tablepermetric` and `singletable`, so a listed ground holds, yet `Init` accepts
the configuration.  Compared after lower-casing, the ingestion mode `Managed` is
managed, so no listed ground holds, yet `Init` refuses the configuration. -/
theorem init_mode_spelling :
    ¬ ((Init calmEnv mixedCase).1 ≠ none ↔
        Rejected mixedCase.MetricsGrouping mixedCase.IngestionType mixedCase) ∧
    ¬ ((Init calmEnv capitalManaged).1 ≠ none ↔
        Rejected (asciiLower capitalManaged.MetricsGrouping)
          (asciiLower capitalManaged.IngestionType) capitalManaged) := by
  constructor
  · intro h
    have hrej : Rejected mixedCase.MetricsGrouping mixedCase.IngestionType mixedCase :=
      Or.inr (Or.inr (Or.inr (Or.inl ⟨by decide, by decide, by decide⟩)))
    exact h.mpr hrej rfl
  · intro h
    have herr : (Init calmEnv capitalManaged).1 ≠ none := by
      intro hn
      have : (Init calmEnv capitalManaged).1 = some (Err.unknownIngestionType "Managed") := rfl
      rw [this] at hn
      exact Option.noConfusion hn
    rcases h.mp herr with h1 | h1 | ⟨h1, -⟩ | ⟨-, h1, -⟩ | ⟨-, -, h1⟩
    · exact absurd h1 (by decide)
    · exact absurd h1 (by decide)
    · exact absurd h1 (by decide)
    · exact h1 (by decide)
    · exact h1 (by decide)

/-- C7, amended, at a sample input. -/
theorem init_rejects_iff_witness :
    (∃ z, calmEnv.newSerializer 1 "2006-01-02T15:04:05.999999999Z07:00" "" = .ok z) ∧
    ((Init calmEnv mixedCase).1 ≠ none ↔
      Rejected (calmEnv.toLower mixedCase.MetricsGrouping) mixedCase.IngestionType mixedCase) :=
  ⟨⟨_, rfl⟩, init_rejects_iff calmEnv mixedCase ⟨_, rfl⟩⟩

/-! ## Empty batches -/

/-- C2, amended: in tablepermetric mode, whatever the state of the connector,
`Write` of an empty batch returns success and leaves the connector and the trace
as they were: no management statement and no ingestion submission is issued. -/
theorem write_empty_tablePerMetric (env : Env) (s : St)
    (hmode : s.adx.MetricsGrouping = tablePerMetric) : Write env s [] = some (none, s) := by
  have hr : rangeEntries env s.trace (∅ : GoMap Bytes) = [] := by
    have := (rangeEntries_fst env s.trace (∅ : GoMap Bytes)).length_eq
    simpa using this
  simp only [Write, hmode, if_true, writeTablePerMetric, tableMetricGroups, hr, pushGroups]

/-- In any other mode an empty batch is pushed, empty, to the configured table. -/
theorem write_empty_singleTable (env : Env) (s : St)
    (hmode : s.adx.MetricsGrouping ≠ tablePerMetric) :
    Write env s [] = pushMetrics env s s.adx.TableName [] := by
  simp only [Write, hmode, if_false, writeSingleTable, metricsArray]

/-- C2 as stated fails: in singletable mode `Write` of the empty batch sends both
provisioning statements, builds an ingestor and submits an empty payload to the
configured table. -/
theorem write_empty_singleTable_submits :
    connectedSingle.MetricsGrouping = singleTable ∧
    ∃ s', Write calmEnv ⟨connectedSingle, []⟩ [] = some (none, s') ∧
      (s'.trace.filter Event.isMgmt).length = 2 ∧
      (s'.trace.filter Event.isConstruct).length = 1 ∧
      submissions s'.trace = [("metrics", [])] :=
  ⟨rfl, _, rfl, rfl, rfl, rfl⟩

/-! ## The statements at sample inputs -/

/-- C2, amended, at a sample input. -/
theorem write_empty_tablePerMetric_witness :
    connected.MetricsGrouping = tablePerMetric ∧
    Write refusingEnv ⟨connected, []⟩ [] = some (none, ⟨connected, []⟩) :=
  ⟨rfl, write_empty_tablePerMetric refusingEnv ⟨connected, []⟩ rfl⟩

/-- C1 at a sample input. -/
theorem group_map_by_name_witness :
    connected.serializer = some jsonSerializer ∧
    (∀ m ∈ sampleBatch, calmEnv.serialize jsonSerializer m = .ok (stampByte m)) ∧
    ∃ groups, tableMetricGroups calmEnv connected sampleBatch ∅ = some (.ok groups) ∧
      (∀ n, n ∈ groups.keys ↔ n ∈ sampleBatch.map Metric.name) ∧
      groups.keys.length = (sampleBatch.map Metric.name).dedup.length ∧
      (∀ n ∈ sampleBatch.map Metric.name, groups.lookup n =
        some (((sampleBatch.filter (fun m => m.name = n)).map stampByte).flatten)) :=
  ⟨rfl, fun _ _ => rfl,
    group_map_by_name calmEnv connected jsonSerializer stampByte sampleBatch rfl
      (fun _ _ => rfl)⟩

/-- In the sample worlds every table obtains an ingestor on the sample connector. -/
theorem sample_obtains (env : Env) (t : String)
    (hm : env.mgmt = calmEnv.mgmt) (hf : env.factory = calmEnv.factory) :
    Obtains env connected t := by
  refine Or.inr ⟨?_, ?_, ?_⟩
  · simp [Ready, connected, AzureDataExplorer.legacy]
  · intro _ tr lg c
    rw [hm]
    exact ⟨rfl, rfl⟩
  · have hl : connected.legacy = true := rfl
    rw [hl, hf]
    simp only [if_true]
    exact fun tr _ _ => ⟨tr.length, rfl⟩

/-- C3 at a sample input. -/
theorem write_tablePerMetric_submits_witness :
    connected.MetricsGrouping = tablePerMetric ∧
    connected.serializer = some jsonSerializer ∧
    (∀ m ∈ sampleBatch, lossyEnv.serialize jsonSerializer m = .ok (stampByte m)) ∧
    (∀ groups, tableMetricGroups lossyEnv connected sampleBatch ∅ = some (.ok groups) →
      AllObtain lossyEnv (rangeEntries lossyEnv [] groups) ⟨connected, []⟩) ∧
    ∃ s' evs, Write lossyEnv ⟨connected, []⟩ sampleBatch = some (none, s') ∧
      s'.trace = [] ++ evs ∧
      ((submissions evs).map Prod.fst).Perm (sampleBatch.map Metric.name).dedup ∧
      ∀ p ∈ submissions evs,
        p.2 = ((sampleBatch.filter (fun m => m.name = p.1)).map stampByte).flatten :=
  ⟨rfl, rfl, fun _ _ => rfl,
    allObtain_of_batch lossyEnv ⟨connected, []⟩ jsonSerializer stampByte sampleBatch rfl
      (fun _ _ => rfl) (fun m _ => sample_obtains lossyEnv m.name rfl rfl),
    write_tablePerMetric_submits lossyEnv ⟨connected, []⟩ jsonSerializer stampByte sampleBatch
      rfl rfl (fun _ _ => rfl)
      (allObtain_of_batch lossyEnv ⟨connected, []⟩ jsonSerializer stampByte sampleBatch rfl
        (fun _ _ => rfl) (fun m _ => sample_obtains lossyEnv m.name rfl rfl))⟩

/-- The scenario of the two tables: the submission to `cpu` fails, `mem` still
receives its payload and `Write` returns success. -/
theorem write_survives_failed_submission :
    ∃ s', Write lossyEnv ⟨connected, []⟩ sampleBatch = some (none, s') ∧
      submissions s'.trace = [("cpu", [1, 3]), ("mem", [2])] ∧
      s'.trace.filterMap (fun e => match e with
        | .fromReader _ t _ _ _ r => some (t, r.isSome)
        | _ => none) = [("cpu", true), ("mem", false)] :=
  ⟨_, rfl, rfl, rfl⟩

/-- C4 at a sample input. -/
theorem write_serialize_error_witness :
    connected.serializer = some jsonSerializer ∧
    (∃ m ∈ [cpu1, bad4, mem2], ∃ e, pickyEnv.serialize jsonSerializer m = .error e) ∧
    ∃ pre m post e, [cpu1, bad4, mem2] = pre ++ m :: post ∧
      (∀ x ∈ pre, ∃ b, pickyEnv.serialize jsonSerializer x = .ok b) ∧
      pickyEnv.serialize jsonSerializer m = .error e ∧
      Write pickyEnv ⟨connected, []⟩ [cpu1, bad4, mem2] = some (some e, ⟨connected, []⟩) :=
  ⟨rfl, ⟨bad4, by simp, _, rfl⟩,
    write_serialize_error pickyEnv ⟨connected, []⟩ jsonSerializer [cpu1, bad4, mem2] rfl
      ⟨bad4, by simp, _, rfl⟩⟩

/-- A serialization failure at a sample input: the second metric of three does
not serialize, `Write` returns its error and nothing has happened. -/
theorem serialize_error_sample :
    Write pickyEnv ⟨connected, []⟩ [cpu1, bad4, mem2] =
      some (some (Err.ext "unsupported value"), ⟨connected, []⟩) ∧
    Write pickyEnv ⟨connectedSingle, []⟩ [cpu1, bad4, mem2] =
      some (some (Err.ext "unsupported value"), ⟨connectedSingle, []⟩) :=
  ⟨rfl, rfl⟩

/-- C10 at a sample input. -/
theorem createTable_disabled_witness :
    ({ connected with CreateTables := false } : AzureDataExplorer).CreateTables = false ∧
    (createAzureDataExplorerTable refusingEnv ⟨{ connected with CreateTables := false }, []⟩
      "cpu").1 = none ∧
    (createAzureDataExplorerTable refusingEnv ⟨{ connected with CreateTables := false }, []⟩
      "cpu").2.adx = { connected with CreateTables := false } ∧
    (createAzureDataExplorerTable refusingEnv ⟨{ connected with CreateTables := false }, []⟩
      "cpu").2.trace = [] ++ [Event.log .info "skipped table creation" []] ∧
    ((createAzureDataExplorerTable refusingEnv ⟨{ connected with CreateTables := false }, []⟩
      "cpu").2.trace.filter Event.isMgmt) = ([] : List Event).filter Event.isMgmt :=
  ⟨rfl, createTable_disabled refusingEnv ⟨{ connected with CreateTables := false }, []⟩ "cpu" rfl⟩

/-- A construction failure at a sample input: with an ingestion mode that is
neither queued nor managed the table is provisioned, no ingestor is built, and the
push returns the error without submitting or caching anything. -/
theorem pushMetrics_unknown_ingestion_type :
    ∃ s', pushMetrics calmEnv ⟨unvalidated, []⟩ "cpu" [1] =
        some (some (Err.creatingIngestor "cpu"
          (Err.ingestionTypeOneOf managedIngestion queuedIngestion)), s') ∧
      s'.adx = unvalidated ∧ (s'.trace.filter Event.isMgmt).length = 2 ∧
      s'.trace.filter Event.isConstruct = [] ∧ submissions s'.trace = [] :=
  ⟨_, rfl, rfl, rfl, rfl, rfl⟩

/-- Two lookups of one table at a sample input: the first provisions the table
and builds handle 2, the second returns handle 2 and adds nothing to the trace. -/
theorem lookup_twice_sample :
    ∃ s1, acquire calmEnv ⟨connected, []⟩ "cpu" = some ((some 2, none), s1) ∧
      s1.trace.length = 3 ∧ acquire calmEnv s1 "cpu" = some ((some 2, none), s1) :=
  ⟨_, rfl, rfl, rfl⟩

/-- C6 at a sample input. -/
theorem lookup_once_witness :
    Ready connected ∧
    ∃ rs1 s1 r s2 rs3 s3 r' s4,
      lookups calmEnv ["mem"] ⟨connected, []⟩ = some (rs1, s1) ∧
      acquire calmEnv s1 "cpu" = some (r, s2) ∧
      lookups calmEnv ["mem", "disk"] s2 = some (rs3, s3) ∧
      acquire calmEnv s3 "cpu" = some (r', s4) ∧
      (∀ h, r = (some h, none) → r' = (some h, none) ∧ s4 = s3) ∧
      ∃ evs, s4.trace = [] ++ evs ∧ ∀ u, evs.countP (Event.builds u) ≤ 1 :=
  ⟨by simp [Ready, connected, AzureDataExplorer.legacy],
    lookup_once calmEnv ⟨connected, []⟩ ["mem"] ["mem", "disk"] "cpu"
      (by simp [Ready, connected, AzureDataExplorer.legacy])⟩

/-- The scenario of the three handles: the second release fails, the first and
the third are still released, then the client, and the error holds only the
second failure. -/
theorem close_second_fails :
    ∃ s', Close stickyEnv ⟨threeHandles, []⟩ =
        some (some (Err.combined [Err.ext "close failed"]), s') ∧
      s'.trace = [Event.closeIngestor 3 none,
        Event.closeIngestor 2 (some (Err.ext "close failed")),
        Event.closeIngestor 1 none, Event.closeClient 0 none] :=
  ⟨_, rfl, rfl⟩

/-- C9, amended, at a sample input. -/
theorem write_singleTable_submits_witness :
    connectedSingle.MetricsGrouping = singleTable ∧
    connectedSingle.serializer = some jsonSerializer ∧
    (∀ m ∈ sampleBatch, calmEnv.serialize jsonSerializer m = .ok (stampByte m)) ∧
    (∃ h s1, acquire calmEnv ⟨connectedSingle, []⟩ connectedSingle.TableName =
      some ((some h, none), s1)) ∧
    ∃ s' evs, Write calmEnv ⟨connectedSingle, []⟩ sampleBatch = some (none, s') ∧
      s'.trace = [] ++ evs ∧
      submissions evs = [(connectedSingle.TableName, (sampleBatch.map stampByte).flatten)] :=
  ⟨rfl, rfl, fun _ _ => rfl, ⟨_, _, rfl⟩,
    write_singleTable_submits calmEnv ⟨connectedSingle, []⟩ jsonSerializer stampByte sampleBatch
      _ _ rfl rfl (fun _ _ => rfl) rfl⟩

/-- C9 as stated fails: in singletable mode, with a batch that serializes, the
store refuses the provisioning statement, `Write` returns the error and nothing is
submitted to the configured table. -/
theorem write_singleTable_no_submission :
    connectedSingle.MetricsGrouping = singleTable ∧
    (∀ m ∈ sampleBatch, refusingEnv.serialize jsonSerializer m = .ok (stampByte m)) ∧
    ∃ s', Write refusingEnv ⟨connectedSingle, []⟩ sampleBatch =
        some (some (Err.creatingTable "metrics" (Err.ext "request denied")), s') ∧
      submissions s'.trace = [] :=
  ⟨rfl, fun _ _ => rfl, _, rfl, rfl⟩

end Telegraf
